import Mathlib

/-!
Shallow embedding of the GMM pipeline of `monai/csrc/gmm/gmm_cuda.cu` and
verification of its stated properties.

Modelling conventions:
* `float` arithmetic is modelled by exact rational arithmetic (`ℚ`); the
  transcendental device intrinsics `expf`, `sqrtf` are abstract function
  parameters (instantiated concretely in witnesses).  Division by zero in
  `ℚ` yields `0`.
* a `uchar4` pixel is a triple of rationals (fields `x`, `y`, `z`; the
  fourth channel is unused by the kernels);
* the warp/tile tree reductions of `GMMReductionKernel`/`GMMFinalizeKernel`
  compute, exactly, the sum of the contributing terms; over `ℚ` the fold
  order is irrelevant, so the per-cluster sufficient statistics are modelled
  directly as sums over the pixels whose label matches the cluster;
* per-thread kernels over disjoint data (`GMMDoSplit`, `GMMDataTermKernel`)
  are modelled as pointwise functions on buffers `ℕ → _`;
* the racy multi-writer store in `GMMFindSplit` (every lane whose eigenvalue
  equals the row maximum stores its descriptor) is modelled as a sequential
  fold in lane order; theorems about the chosen lane are stated in
  existential form so that they hold for any write-order resolution.
-/

namespace GMM

/-- Model of `uchar4` (only the `x`, `y`, `z` channels are used). -/
structure Pixel where
  x : ℚ
  y : ℚ
  z : ℚ
deriving DecidableEq

/-- Model of `float3`. -/
structure Vec3 where
  x : ℚ
  y : ℚ
  z : ℚ
deriving DecidableEq

/-- Source function `scalar_prod`. -/
def scalar_prod (a b : Vec3) : ℚ :=
  a.x * b.x + a.y * b.y + a.z * b.z

/-- Source expression `make_float3(pixel.x, pixel.y, pixel.z)`. -/
def pixelVec (p : Pixel) : Vec3 :=
  ⟨p.x, p.y, p.z⟩

/-- Source function `get_component(pixel, i)`: the i-th raw moment term of a pixel. -/
def get_component (p : Pixel) (i : ℕ) : ℚ :=
  match i with
  | 0 => 1
  | 1 => p.x
  | 2 => p.y
  | 3 => p.z
  | 4 => p.x * p.x
  | 5 => p.x * p.y
  | 6 => p.x * p.z
  | 7 => p.y * p.y
  | 8 => p.y * p.z
  | 9 => p.z * p.z
  | _ => 0

/-- The pixels of the image (pixel index `p < w*h`) whose label equals
`idx`, as selected by `GMMReductionKernel` (`my_gmm_idx != -1` and
`my_gmm_idx == gmm_idx`). -/
def clusterPixels (w h : ℕ) (image : ℕ → Pixel) (alpha : ℕ → ℤ) (idx : ℤ) :
    List Pixel :=
  (((List.range (w * h)).filter (fun p => alpha p ≠ -1 ∧ alpha p = idx)).map image)

/-- Net effect of the tiled tree reduction of `GMMReductionKernel` followed
by the cross-tile reduction in `GMMFinalizeKernel`: the i-th global
sufficient statistic of a cluster is the exact sum of the i-th moment over
its pixels. -/
def gmmStat (L : List Pixel) (i : ℕ) : ℚ :=
  (L.map (fun p => get_component p i)).sum

/-- An 11-slot cluster record (`gmm_pitch = 11 * sizeof(float)`):
slot 0 = count, slots 1-3 = means, slots 4-9 = covariance (after
`GMMFinalizeKernel<...,false>`) or inverse covariance (after
`GMMFinalizeKernel<...,true>`), slot 10 = determinant (overwritten by the
common term in `GMMcommonTerm`). -/
structure GMMRec where
  count : ℚ
  mean1 : ℚ
  mean2 : ℚ
  mean3 : ℚ
  q4 : ℚ
  q5 : ℚ
  q6 : ℚ
  q7 : ℚ
  q8 : ℚ
  q9 : ℚ
  slot10 : ℚ
deriving DecidableEq

/-- The `epsilon` constant of `get_constant`. -/
def epsilon : ℚ := 1 / 1000

/-- The packed nibble table `det_indices` from the source. -/
def det_indices : ℕ → ℕ
  | 0 => (9 <<< (4*4)) + (4 <<< (3*4)) + (6 <<< (2*4)) + (5 <<< (1*4)) + (4 <<< (0*4))
  | 1 => (5 <<< (4*4)) + (8 <<< (3*4)) + (6 <<< (2*4)) + (6 <<< (1*4)) + (7 <<< (0*4))
  | _ => (5 <<< (4*4)) + (8 <<< (3*4)) + (7 <<< (2*4)) + (8 <<< (1*4)) + (9 <<< (0*4))

/-- The packed nibble table `inv_indices` from the source. -/
def inv_indices : ℕ → ℕ
  | 0 => (4 <<< (5*4)) + (5 <<< (4*4)) + (4 <<< (3*4)) + (5 <<< (2*4)) + (6 <<< (1*4)) + (7 <<< (0*4))
  | 1 => (7 <<< (5*4)) + (6 <<< (4*4)) + (9 <<< (3*4)) + (8 <<< (2*4)) + (8 <<< (1*4)) + (9 <<< (0*4))
  | 2 => (5 <<< (5*4)) + (4 <<< (4*4)) + (6 <<< (3*4)) + (6 <<< (2*4)) + (5 <<< (1*4)) + (8 <<< (0*4))
  | _ => (5 <<< (5*4)) + (8 <<< (4*4)) + (6 <<< (3*4)) + (7 <<< (2*4)) + (9 <<< (1*4)) + (8 <<< (0*4))

/-- Nibble extraction `(v & (15 << (tx*4))) >> (tx*4)` from the source. -/
def nibble (v tx : ℕ) : ℕ :=
  (v &&& (15 <<< (tx * 4))) >>> (tx * 4)

/-- The `norm_factor` of `GMMFinalizeKernel` after processing slot 0: it is
updated to `1/count` only when `count > 0`, else it stays `1.0`. -/
def norm_factor (s : ℕ → ℚ) : ℚ :=
  if 0 < s 0 then 1 / s 0 else 1

/-- Slots 1-3 written by `GMMFinalizeKernel`:
`final_gmm[i] = norm_factor * thread_gmm - get_constant(final_gmm, i)` with
`get_constant` returning `0` for `i = 1, 2, 3`. -/
def finalMean (s : ℕ → ℚ) (i : ℕ) : ℚ :=
  norm_factor s * s i

/-- Slots 4-9 written by `GMMFinalizeKernel`:
`final_gmm[i] = norm_factor * thread_gmm - get_constant(final_gmm, i)` with
`get_constant` returning the mean products, `+ epsilon` on the three
diagonal entries (cases 4, 7, 9 of `get_constant`).  Out-of-range slots
give `0` (matching `get_constant`'s default). -/
def finalCov (s : ℕ → ℚ) (i : ℕ) : ℚ :=
  match i with
  | 4 => norm_factor s * s 4 - (finalMean s 1 * finalMean s 1 + epsilon)
  | 5 => norm_factor s * s 5 - finalMean s 1 * finalMean s 2
  | 6 => norm_factor s * s 6 - finalMean s 1 * finalMean s 3
  | 7 => norm_factor s * s 7 - (finalMean s 2 * finalMean s 2 + epsilon)
  | 8 => norm_factor s * s 8 - finalMean s 2 * finalMean s 3
  | 9 => norm_factor s * s 9 - (finalMean s 3 * finalMean s 3 + epsilon)
  | _ => 0

/-- Source line `final_gmm[10 + tx] = final_gmm[idx0] * final_gmm[idx1] * final_gmm[idx2]`
with the indices decoded from `det_indices`. -/
def detProd (s : ℕ → ℚ) (tx : ℕ) : ℚ :=
  finalCov s (nibble (det_indices 0) tx) * finalCov s (nibble (det_indices 1) tx) *
    finalCov s (nibble (det_indices 2) tx)

/-- Source line `det = final_gmm[10] + 2*final_gmm[11] - final_gmm[12] - final_gmm[13] - final_gmm[14]`. -/
def finalDet (s : ℕ → ℚ) : ℚ :=
  detProd s 0 + 2 * detProd s 1 - detProd s 2 - detProd s 3 - detProd s 4

/-- Source line `temp = final_gmm[idx0]*final_gmm[idx1] - final_gmm[idx2]*final_gmm[idx3]`
with the indices decoded from `inv_indices`. -/
def invTemp (s : ℕ → ℚ) (tx : ℕ) : ℚ :=
  finalCov s (nibble (inv_indices 0) tx) * finalCov s (nibble (inv_indices 1) tx) -
    finalCov s (nibble (inv_indices 2) tx) * finalCov s (nibble (inv_indices 3) tx)

/-- The guarded inverse-covariance slot written at `final_gmm[4 + tx]`:
`temp / det` when `det > 0`, else `0`. -/
def finalInv (s : ℕ → ℚ) (tx : ℕ) : ℚ :=
  if 0 < finalDet s then invTemp s tx / finalDet s else 0

/-- Kernel `GMMFinalizeKernel<warp_N, invertSigma>` applied to the global sums `s`
of one cluster: the 11 slots stored back into the cluster record. -/
def GMMFinalizeKernel (s : ℕ → ℚ) (invertSigma : Bool) : GMMRec :=
  if invertSigma then
    { count := s 0, mean1 := finalMean s 1, mean2 := finalMean s 2, mean3 := finalMean s 3,
      q4 := finalInv s 0, q5 := finalInv s 1, q6 := finalInv s 2,
      q7 := finalInv s 3, q8 := finalInv s 4, q9 := finalInv s 5, slot10 := finalDet s }
  else
    { count := s 0, mean1 := finalMean s 1, mean2 := finalMean s 2, mean3 := finalMean s 3,
      q4 := finalCov s 4, q5 := finalCov s 5, q6 := finalCov s 6,
      q7 := finalCov s 7, q8 := finalCov s 8, q9 := finalCov s 9, slot10 := finalDet s }

/-- Quadratic form of a symmetric 3x3 matrix given by its six
upper-triangular entries `(c4 c5 c6; c5 c7 c8; c6 c8 c9)` at `(a, b, c)`. -/
def quadForm (c4 c5 c6 c7 c8 c9 a b c : ℚ) : ℚ :=
  a * a * c4 + b * b * c7 + c * c * c9 + 2 * (a * b * c5 + a * c * c6 + b * c * c8)

/-- The row sum computed by the warp butterfly reduction in `GMMcommonTerm`:
lane `x` of row `y` contributes `gmm[((x*2)|y) * gmm_pitch]` (the count)
when `x < gmmK` and `0.0f` otherwise; the butterfly computes the sum of all
32 lane values.  For `y < 2`, `(x*2)|y = x*2 + y`. -/
def mixtureCountSum (gmm : ℕ → GMMRec) (gmmK y : ℕ) : ℚ :=
  ((List.range 32).map (fun x => if x < gmmK then (gmm (x * 2 + y)).count else 0)).sum

/-- Kernel `GMMcommonTerm`: for each active cluster `g = (x*2)|y` with `x < gmmK`,
slot 10 (holding the determinant) is overwritten with
`gmm_n / (sqrtf(det) * sum)`; inactive records are untouched. -/
def GMMcommonTerm (sqrtf : ℚ → ℚ) (gmmK : ℕ) (gmm : ℕ → GMMRec) : ℕ → GMMRec :=
  fun g =>
    if g / 2 < gmmK then
      let r := gmm g
      { r with slot10 := r.count / (sqrtf r.slot10 * mixtureCountSum gmm gmmK (g % 2)) }
    else gmm g

/-- Source constant `MIXTURES`. -/
def MIXTURES : ℕ := 2

/-- Source function `GMMTerm(pixel, gmm)`: the Gaussian response of one cluster record,
reading slot 10 as the common term and slots 4-9 as the inverse
covariance. -/
def GMMTerm (expf : ℚ → ℚ) (px : Pixel) (g : GMMRec) : ℚ :=
  let v1 := px.x - g.mean1
  let v2 := px.y - g.mean2
  let v3 := px.z - g.mean3
  g.slot10 *
    expf (-(1/2) * (v1 * v1 * g.q4 + v2 * v2 * g.q7 + v3 * v3 * g.q9 +
      2 * (v1 * v2 * g.q5 + v3 * v1 * g.q6 + v3 * v2 * g.q8)))

/-- The inner loop of `GMMDataTermKernel`: mixture `i` accumulates
`GMMTerm(pixel, gmm[(j+i)*gmm_pitch])` for `j = 0, MIXTURES, 2*MIXTURES, ...`
below `gmmN` (that is `ceil(gmmN / MIXTURES)` iterations). -/
def mixtureWeight (expf : ℚ → ℚ) (px : Pixel) (gmm : ℕ → GMMRec) (gmmN i : ℕ) : ℚ :=
  ((List.range ((gmmN + MIXTURES - 1) / MIXTURES)).map
    (fun j => GMMTerm expf px (gmm (j * MIXTURES + i)))).sum

/-- Source variable `weight_total`: the sum of the per-mixture weights of one pixel. -/
def weightTotal (expf : ℚ → ℚ) (px : Pixel) (gmm : ℕ → GMMRec) (gmmN : ℕ) : ℚ :=
  ((List.range MIXTURES).map (mixtureWeight expf px gmm gmmN)).sum

/-- The per-pixel output value of `GMMDataTermKernel` for mixture `i`:
`weights[i] / weight_total`. -/
def GMMDataTermPixel (expf : ℚ → ℚ) (px : Pixel) (gmm : ℕ → GMMRec) (gmmN i : ℕ) : ℚ :=
  mixtureWeight expf px gmm gmmN i / weightTotal expf px gmm gmmN

/-- Buffer-level effect of `GMMDataTermKernel`: position
`x + y*width + i*height*width` (for `x < width`, `y < height`,
`i < MIXTURES`) is written with the per-pixel value; every other position
keeps its previous (uninitialized) content `out0`. -/
def GMMDataTermKernel (expf : ℚ → ℚ) (gmm : ℕ → GMMRec) (gmmN w h : ℕ)
    (image : ℕ → Pixel) (out0 : ℕ → ℚ) : ℕ → ℚ :=
  fun n =>
    if n < MIXTURES * (w * h) then
      GMMDataTermPixel expf (image (n % (w * h))) gmm gmmN (n / (w * h))
    else out0 n

/-- Source struct `GMMSplit_t`. -/
structure GMMSplit_t where
  idx : ℤ
  threshold : ℚ
  eigenvector : Vec3
deriving DecidableEq

/-- The eigenvalue seen by lane `x` of row `y` in `GMMFindSplit`: the
largest eigenvalue of the covariance block (`&gmm[gmm_idx*gmm_pitch + 4]`)
of cluster `(x << 1) + y` when `x < gmmK`, and the initialization value `0`
otherwise.  `eig` abstracts the closed-form `largest_eigenvalue` solver. -/
def rowEig (eig : GMMRec → ℚ) (gmm : ℕ → GMMRec) (gmmK y x : ℕ) : ℚ :=
  if x < gmmK then eig (gmm (x * 2 + y)) else 0

/-- The eigenvector held by lane `x` of row `y`: computed by
`largest_eigenvalue_eigenvector` (abstracted as `evec`) for active lanes,
and an arbitrary uninitialized value `junk` for inactive lanes. -/
def rowVec (evec : GMMRec → Vec3) (junk : Vec3) (gmm : ℕ → GMMRec) (gmmK y x : ℕ) : Vec3 :=
  if x < gmmK then evec (gmm (x * 2 + y)) else junk

/-- The descriptor written by lane `x` of row `y` when its eigenvalue
equals the row maximum: `idx = threadIdx.x`, `threshold` = scalar product
of the cluster's mean (slots 1-3 of record `x*2 + y`) with the lane's
eigenvector. -/
def rowDesc (evec : GMMRec → Vec3) (junk : Vec3) (gmm : ℕ → GMMRec) (gmmK y x : ℕ) :
    GMMSplit_t :=
  { idx := (x : ℤ),
    threshold := scalar_prod
      ⟨(gmm (x * 2 + y)).mean1, (gmm (x * 2 + y)).mean2, (gmm (x * 2 + y)).mean3⟩
      (rowVec evec junk gmm gmmK y x),
    eigenvector := rowVec evec junk gmm gmmK y x }

/-- The row maximum computed by the butterfly max reduction over the 32
lanes of one row of `GMMFindSplit`. -/
def rowMax (eig : GMMRec → ℚ) (gmm : ℕ → GMMRec) (gmmK y : ℕ) : ℚ :=
  ((List.range 32).map (rowEig eig gmm gmmK y)).foldl max (rowEig eig gmm gmmK y 0)

/-- One row of `GMMFindSplit`: every lane whose eigenvalue equals the row
maximum stores its descriptor into `gmmSplit[y]`.  The concurrent stores
are modelled as a sequential fold in lane order (`old` is the previous
buffer content, kept when no lane stores). -/
def GMMFindSplitRow (eig : GMMRec → ℚ) (evec : GMMRec → Vec3) (junk : Vec3)
    (gmm : ℕ → GMMRec) (gmmK y : ℕ) (old : GMMSplit_t) : GMMSplit_t :=
  (List.range 32).foldl
    (fun cur x =>
      if rowEig eig gmm gmmK y x = rowMax eig gmm gmmK y then rowDesc evec junk gmm gmmK y x
      else cur)
    old

/-- Kernel `GMMFindSplit`: both rows `y = 0, 1` produce a descriptor. -/
def GMMFindSplit (eig : GMMRec → ℚ) (evec : GMMRec → Vec3) (junk : Vec3)
    (gmm : ℕ → GMMRec) (gmmK : ℕ) (old : ℕ → GMMSplit_t) : ℕ → GMMSplit_t :=
  fun y => if y < 2 then GMMFindSplitRow eig evec junk gmm gmmK y (old y) else old y

/-- Kernel `GMMDoSplit`: each pixel `p < w*h` with label `a ≠ -1` consults the
descriptor of its parity (`select = a & 1`, here `a % 2`; `gmm_idx = a >> 1`,
here `a / 2` — Euclidean mod/div agree with the two's-complement bitwise
operations); when its cluster is the chosen one and the projection of its
color on the stored eigenvector strictly exceeds the stored threshold, its
label becomes `k + select`; otherwise nothing changes. -/
def GMMDoSplit (split : ℕ → GMMSplit_t) (k : ℤ) (w h : ℕ) (image : ℕ → Pixel)
    (alpha : ℕ → ℤ) : ℕ → ℤ :=
  fun p =>
    if p < w * h then
      let a := alpha p
      if a ≠ -1 then
        if a / 2 = (split (a % 2).toNat).idx then
          if (split (a % 2).toNat).threshold <
              scalar_prod (split (a % 2).toNat).eigenvector (pixelVec (image p)) then
            k + a % 2
          else a
        else a
      else a
    else alpha p

/-- State-passing form of `GMMDoSplit`, recording that the kernel receives
the image as `const uchar4 *` and performs no store to it. -/
def GMMDoSplitState (split : ℕ → GMMSplit_t) (k : ℤ) (w h : ℕ)
    (st : (ℕ → Pixel) × (ℕ → ℤ)) : (ℕ → Pixel) × (ℕ → ℤ) :=
  (st.1, GMMDoSplit split k w h st.1 st.2)

/-! Helper lemmas about the finalization stage. -/

/-- Decoding `det_indices` yields the closed-form symmetric 3x3
determinant in the six covariance slots. -/
theorem finalDet_eq (s : ℕ → ℚ) :
    finalDet s =
      finalCov s 4 * finalCov s 7 * finalCov s 9 +
        2 * (finalCov s 5 * finalCov s 6 * finalCov s 8) -
        finalCov s 6 * finalCov s 6 * finalCov s 7 -
        finalCov s 4 * finalCov s 8 * finalCov s 8 -
        finalCov s 9 * finalCov s 5 * finalCov s 5 := by
  have h00 : nibble (det_indices 0) 0 = 4 := by decide
  have h01 : nibble (det_indices 0) 1 = 5 := by decide
  have h02 : nibble (det_indices 0) 2 = 6 := by decide
  have h03 : nibble (det_indices 0) 3 = 4 := by decide
  have h04 : nibble (det_indices 0) 4 = 9 := by decide
  have h10 : nibble (det_indices 1) 0 = 7 := by decide
  have h11 : nibble (det_indices 1) 1 = 6 := by decide
  have h12 : nibble (det_indices 1) 2 = 6 := by decide
  have h13 : nibble (det_indices 1) 3 = 8 := by decide
  have h14 : nibble (det_indices 1) 4 = 5 := by decide
  have h20 : nibble (det_indices 2) 0 = 9 := by decide
  have h21 : nibble (det_indices 2) 1 = 8 := by decide
  have h22 : nibble (det_indices 2) 2 = 7 := by decide
  have h23 : nibble (det_indices 2) 3 = 8 := by decide
  have h24 : nibble (det_indices 2) 4 = 5 := by decide
  simp only [finalDet, detProd, h00, h01, h02, h03, h04, h10, h11, h12, h13, h14,
    h20, h21, h22, h23, h24]

/-- Decoding `inv_indices` yields the cofactors of the symmetric covariance
matrix: slot `4+tx` receives (cofactor / det) in the order
`C00, C01, C02, C11, C12, C22`. -/
theorem invTemp_eq (s : ℕ → ℚ) :
    invTemp s 0 = finalCov s 7 * finalCov s 9 - finalCov s 8 * finalCov s 8 ∧
    invTemp s 1 = finalCov s 6 * finalCov s 8 - finalCov s 5 * finalCov s 9 ∧
    invTemp s 2 = finalCov s 5 * finalCov s 8 - finalCov s 6 * finalCov s 7 ∧
    invTemp s 3 = finalCov s 4 * finalCov s 9 - finalCov s 6 * finalCov s 6 ∧
    invTemp s 4 = finalCov s 5 * finalCov s 6 - finalCov s 4 * finalCov s 8 ∧
    invTemp s 5 = finalCov s 4 * finalCov s 7 - finalCov s 5 * finalCov s 5 := by
  have g00 : nibble (inv_indices 0) 0 = 7 := by decide
  have g10 : nibble (inv_indices 1) 0 = 9 := by decide
  have g20 : nibble (inv_indices 2) 0 = 8 := by decide
  have g30 : nibble (inv_indices 3) 0 = 8 := by decide
  have g01 : nibble (inv_indices 0) 1 = 6 := by decide
  have g11 : nibble (inv_indices 1) 1 = 8 := by decide
  have g21 : nibble (inv_indices 2) 1 = 5 := by decide
  have g31 : nibble (inv_indices 3) 1 = 9 := by decide
  have g02 : nibble (inv_indices 0) 2 = 5 := by decide
  have g12 : nibble (inv_indices 1) 2 = 8 := by decide
  have g22 : nibble (inv_indices 2) 2 = 6 := by decide
  have g32 : nibble (inv_indices 3) 2 = 7 := by decide
  have g03 : nibble (inv_indices 0) 3 = 4 := by decide
  have g13 : nibble (inv_indices 1) 3 = 9 := by decide
  have g23 : nibble (inv_indices 2) 3 = 6 := by decide
  have g33 : nibble (inv_indices 3) 3 = 6 := by decide
  have g04 : nibble (inv_indices 0) 4 = 5 := by decide
  have g14 : nibble (inv_indices 1) 4 = 6 := by decide
  have g24 : nibble (inv_indices 2) 4 = 4 := by decide
  have g34 : nibble (inv_indices 3) 4 = 8 := by decide
  have g05 : nibble (inv_indices 0) 5 = 4 := by decide
  have g15 : nibble (inv_indices 1) 5 = 7 := by decide
  have g25 : nibble (inv_indices 2) 5 = 5 := by decide
  have g35 : nibble (inv_indices 3) 5 = 5 := by decide
  refine ⟨?_, ?_, ?_, ?_, ?_, ?_⟩ <;>
    simp only [invTemp, g00, g10, g20, g30, g01, g11, g21, g31, g02, g12, g22, g32,
      g03, g13, g23, g33, g04, g14, g24, g34, g05, g15, g25, g35]

/-- With a positive count, the finalized means are the raw sums divided by
the count. -/
theorem finalMean_eq (s : ℕ → ℚ) (hs : 0 < s 0) (i : ℕ) :
    finalMean s i = s i / s 0 := by
  simp only [finalMean, norm_factor, if_pos hs]
  ring

/-- With a positive count, the finalized covariance entries are
`sum_cross / count - mean_i * mean_j`, with `epsilon` SUBTRACTED on the
three diagonal entries (the sign comes from
`final_gmm[i] = norm_factor*sum - get_constant(...)` with `get_constant`
returning `mean_i*mean_j + epsilon` on the diagonal). -/
theorem finalCov_eq (s : ℕ → ℚ) (hs : 0 < s 0) :
    finalCov s 4 = s 4 / s 0 - (s 1 / s 0) * (s 1 / s 0) - epsilon ∧
    finalCov s 5 = s 5 / s 0 - (s 1 / s 0) * (s 2 / s 0) ∧
    finalCov s 6 = s 6 / s 0 - (s 1 / s 0) * (s 3 / s 0) ∧
    finalCov s 7 = s 7 / s 0 - (s 2 / s 0) * (s 2 / s 0) - epsilon ∧
    finalCov s 8 = s 8 / s 0 - (s 2 / s 0) * (s 3 / s 0) ∧
    finalCov s 9 = s 9 / s 0 - (s 3 / s 0) * (s 3 / s 0) - epsilon := by
  refine ⟨?_, ?_, ?_, ?_, ?_, ?_⟩ <;>
    · simp only [finalCov, finalMean_eq s hs, norm_factor, if_pos hs]
      ring

/-! Helper lemmas about the sufficient statistics of a pixel list. -/

/-- Statistic 0 counts the pixels. -/
theorem gmmStat_zero (L : List Pixel) : gmmStat L 0 = (L.length : ℚ) := by
  induction L with
  | nil => rfl
  | cons p L ih =>
    simp only [gmmStat, List.map_cons, List.sum_cons, List.length_cons] at ih ⊢
    rw [ih]
    simp [get_component]
    ring

/-- The first moments assemble linear projections. -/
theorem gmmStat_lin (L : List Pixel) (a b c : ℚ) :
    a * gmmStat L 1 + b * gmmStat L 2 + c * gmmStat L 3 =
      (L.map (fun p => a * p.x + b * p.y + c * p.z)).sum := by
  induction L with
  | nil => simp [gmmStat]
  | cons p L ih =>
    simp only [gmmStat, List.map_cons, List.sum_cons, get_component] at ih ⊢
    linear_combination ih

/-- The second moments assemble squared linear projections. -/
theorem gmmStat_quad (L : List Pixel) (a b c : ℚ) :
    a * a * gmmStat L 4 + b * b * gmmStat L 7 + c * c * gmmStat L 9 +
      2 * (a * b * gmmStat L 5 + a * c * gmmStat L 6 + b * c * gmmStat L 8) =
      (L.map (fun p => (a * p.x + b * p.y + c * p.z) ^ 2)).sum := by
  induction L with
  | nil => simp [gmmStat]
  | cons p L ih =>
    simp only [gmmStat, List.map_cons, List.sum_cons, get_component] at ih ⊢
    linear_combination ih

/-- Cauchy-Schwarz for lists: `(sum l)^2 ≤ |l| * sum of squares`. -/
theorem list_sq_sum_le (l : List ℚ) :
    l.sum ^ 2 ≤ (l.length : ℚ) * (l.map (fun t => t ^ 2)).sum := by
  induction l with
  | nil => simp
  | cons t l ih =>
    have hQ : 0 ≤ (l.map (fun t => t ^ 2)).sum := by
      apply List.sum_nonneg
      intro x hx
      obtain ⟨y, _, rfl⟩ := List.mem_map.mp hx
      positivity
    simp only [List.sum_cons, List.length_cons, List.map_cons]
    push_cast
    rcases Nat.eq_zero_or_pos l.length with h0 | hpos
    · obtain rfl : l = [] := List.length_eq_zero.mp h0
      simp
    · have hn : (0:ℚ) < (l.length : ℚ) := by exact_mod_cast hpos
      nlinarith [sq_nonneg ((l.length : ℚ) * t - l.sum), ih, hQ,
        mul_nonneg (le_of_lt hn) hQ]

/-- The sample covariance matrix (the finalized covariance with the
`epsilon` shift undone on the diagonal) is positive semi-definite: the
quadratic form equals `(n * Q - T^2) / n^2` for the projected pixel list. -/
theorem sampleCov_psd (L : List Pixel) (hL : L ≠ []) (a b c : ℚ) :
    0 ≤ quadForm (finalCov (gmmStat L) 4 + epsilon) (finalCov (gmmStat L) 5)
      (finalCov (gmmStat L) 6) (finalCov (gmmStat L) 7 + epsilon)
      (finalCov (gmmStat L) 8) (finalCov (gmmStat L) 9 + epsilon) a b c := by
  set s := gmmStat L with hs
  have hlen : 0 < L.length := List.length_pos.mpr hL
  have hn : (0:ℚ) < (L.length : ℚ) := by exact_mod_cast hlen
  have hs0 : s 0 = (L.length : ℚ) := gmmStat_zero L
  have hpos : 0 < s 0 := by rw [hs0]; exact hn
  have hne : s 0 ≠ 0 := ne_of_gt hpos
  obtain ⟨h4, h5, h6, h7, h8, h9⟩ := finalCov_eq s hpos
  have e1 : a * a * s 4 + b * b * s 7 + c * c * s 9 +
      2 * (a * b * s 5 + a * c * s 6 + b * c * s 8) =
      (L.map (fun p => (a * p.x + b * p.y + c * p.z) ^ 2)).sum := gmmStat_quad L a b c
  have e2 : a * s 1 + b * s 2 + c * s 3 =
      (L.map (fun p => a * p.x + b * p.y + c * p.z)).sum := gmmStat_lin L a b c
  have hQT : ((L.map (fun p => a * p.x + b * p.y + c * p.z)).sum) ^ 2 ≤
      (L.length : ℚ) * (L.map (fun p => (a * p.x + b * p.y + c * p.z) ^ 2)).sum := by
    have h := list_sq_sum_le (L.map (fun p => a * p.x + b * p.y + c * p.z))
    simpa only [List.map_map, List.length_map, Function.comp] using h
  have key : quadForm (finalCov s 4 + epsilon) (finalCov s 5) (finalCov s 6)
      (finalCov s 7 + epsilon) (finalCov s 8) (finalCov s 9 + epsilon) a b c =
      (L.map (fun p => (a * p.x + b * p.y + c * p.z) ^ 2)).sum / s 0 -
        ((L.map (fun p => a * p.x + b * p.y + c * p.z)).sum) ^ 2 / (s 0) ^ 2 := by
    rw [quadForm, h4, h5, h6, h7, h8, h9, ← e1, ← e2]
    field_simp
    ring
  rw [key, hs0]
  have hdivs : ((L.map (fun p => a * p.x + b * p.y + c * p.z)).sum) ^ 2 /
        ((L.length : ℚ)) ^ 2 ≤
      (L.map (fun p => (a * p.x + b * p.y + c * p.z) ^ 2)).sum / (L.length : ℚ) := by
    rw [div_le_div_iff (by positivity) hn]
    nlinarith [hQT, hn]
  linarith

/-! Helper lemmas about the 32-lane folds. -/

/-- A padded 32-lane row sum equals the sum over the active lanes. -/
theorem paddedListSum (f : ℕ → ℚ) (K : ℕ) :
    ∀ n, K ≤ n →
      ((List.range n).map (fun x => if x < K then f x else 0)).sum =
        ((List.range K).map f).sum := by
  intro n
  induction n with
  | zero =>
    intro h
    have hK : K = 0 := Nat.le_zero.mp h
    subst hK
    rfl
  | succ n ih =>
    intro h
    rcases Nat.lt_or_ge K (n + 1) with hK | hK
    · have hKn : K ≤ n := Nat.lt_succ_iff.mp hK
      rw [List.range_succ, List.map_append, List.sum_append, ih hKn]
      have hnK : ¬ n < K := by omega
      simp [hnK]
    · have hKeq : K = n + 1 := le_antisymm h hK
      subst hKeq
      have hbody : (List.range n).map (fun x => if x < n + 1 then f x else 0) =
          (List.range n).map f := by
        apply List.map_congr_left
        intro x hx
        have : x < n + 1 := by
          have := List.mem_range.mp hx
          omega
        simp [this]
      rw [List.range_succ, List.map_append, List.sum_append, hbody]
      simp [Nat.lt_succ_self]

/-- The conditional-write fold ends holding the value of some lane that
satisfies the write condition, provided one exists. -/
theorem foldl_write_mem {α : Type} (f : ℕ → α) (P : ℕ → Prop) [DecidablePred P]
    (a : α) (n : ℕ) (hx : ∃ x, x < n ∧ P x) :
    ∃ x, x < n ∧ P x ∧
      (List.range n).foldl (fun cur x => if P x then f x else cur) a = f x := by
  induction n with
  | zero =>
    obtain ⟨x, hx0, _⟩ := hx
    omega
  | succ n ih =>
    rw [List.range_succ, List.foldl_append]
    simp only [List.foldl_cons, List.foldl_nil]
    by_cases hP : P n
    · exact ⟨n, Nat.lt_succ_self n, hP, by rw [if_pos hP]⟩
    · rw [if_neg hP]
      obtain ⟨x, hxn, hPx⟩ := hx
      have hxn' : x < n := by
        rcases Nat.lt_succ_iff_lt_or_eq.mp hxn with hlt | rfl
        · exact hlt
        · exact absurd hPx hP
      obtain ⟨y, hy, hPy, heq⟩ := ih ⟨x, hxn', hPx⟩
      exact ⟨y, Nat.lt_succ_of_lt hy, hPy, heq⟩

/-- When exactly one lane satisfies the write condition, it wins. -/
theorem foldl_write_unique {α : Type} (f : ℕ → α) (P : ℕ → Prop) [DecidablePred P]
    (a : α) (n x0 : ℕ) (hx0 : x0 < n) (hP : P x0)
    (huniq : ∀ x, x < n → P x → x = x0) :
    (List.range n).foldl (fun cur x => if P x then f x else cur) a = f x0 := by
  obtain ⟨y, hy, hPy, heq⟩ := foldl_write_mem f P a n ⟨x0, hx0, hP⟩
  rw [huniq y hy hPy] at heq
  exact heq

/-- A fold of `max` is bounded by any common upper bound. -/
theorem foldl_max_le (B : ℚ) :
    ∀ (l : List ℚ) (a : ℚ), a ≤ B → (∀ b ∈ l, b ≤ B) → l.foldl max a ≤ B := by
  intro l
  induction l with
  | nil => intro a ha _; simpa using ha
  | cons t l ih =>
    intro a ha hl
    simp only [List.foldl_cons]
    exact ih (max a t) (max_le ha (hl t (List.mem_cons_self t l))) fun b hb =>
      hl b (List.mem_cons_of_mem t hb)

/-- The initial value bounds a fold of `max` from below. -/
theorem le_foldl_max_init : ∀ (l : List ℚ) (a : ℚ), a ≤ l.foldl max a := by
  intro l
  induction l with
  | nil => intro a; exact le_refl a
  | cons t l ih =>
    intro a
    simp only [List.foldl_cons]
    exact le_trans (le_max_left a t) (ih (max a t))

/-- Every member bounds a fold of `max` from below. -/
theorem le_foldl_max_mem : ∀ (l : List ℚ) (a b : ℚ), b ∈ l → b ≤ l.foldl max a := by
  intro l
  induction l with
  | nil => intro a b hb; exact absurd hb (List.not_mem_nil b)
  | cons t l ih =>
    intro a b hb
    simp only [List.foldl_cons]
    rcases List.mem_cons.mp hb with rfl | hb
    · exact le_trans (le_max_right a b) (le_foldl_max_init l (max a b))
    · exact ih (max a t) b hb

/-- A fold of `max` is attained by the initial value or some member. -/
theorem foldl_max_attained : ∀ (l : List ℚ) (a : ℚ), l.foldl max a = a ∨ l.foldl max a ∈ l := by
  intro l
  induction l with
  | nil => intro a; exact Or.inl rfl
  | cons t l ih =>
    intro a
    simp only [List.foldl_cons]
    rcases ih (max a t) with h | h
    · rcases max_choice a t with hm | hm
      · exact Or.inl (h.trans hm)
      · exact Or.inr (List.mem_cons.mpr (Or.inl (h.trans hm)))
    · exact Or.inr (List.mem_cons_of_mem t h)

/-- Every lane eigenvalue is bounded by the row maximum. -/
theorem rowEig_le_rowMax (eig : GMMRec → ℚ) (gmm : ℕ → GMMRec) (gmmK y x : ℕ)
    (hx : x < 32) : rowEig eig gmm gmmK y x ≤ rowMax eig gmm gmmK y := by
  apply le_foldl_max_mem
  exact List.mem_map.mpr ⟨x, List.mem_range.mpr hx, rfl⟩

/-- The row maximum is attained by some lane. -/
theorem rowMax_attained (eig : GMMRec → ℚ) (gmm : ℕ → GMMRec) (gmmK y : ℕ) :
    ∃ x, x < 32 ∧ rowEig eig gmm gmmK y x = rowMax eig gmm gmmK y := by
  rcases foldl_max_attained ((List.range 32).map (rowEig eig gmm gmmK y))
      (rowEig eig gmm gmmK y 0) with h | h
  · exact ⟨0, by norm_num, h.symm⟩
  · obtain ⟨x, hx, hfx⟩ := List.mem_map.mp h
    exact ⟨x, List.mem_range.mp hx, hfx⟩

/-- One row of `GMMFindSplit` stores the descriptor of some lane whose
eigenvalue attains the row maximum. -/
theorem findSplitRow_exists (eig : GMMRec → ℚ) (evec : GMMRec → Vec3) (junk : Vec3)
    (gmm : ℕ → GMMRec) (gmmK y : ℕ) (old : GMMSplit_t) :
    ∃ x, x < 32 ∧ rowEig eig gmm gmmK y x = rowMax eig gmm gmmK y ∧
      GMMFindSplitRow eig evec junk gmm gmmK y old = rowDesc evec junk gmm gmmK y x := by
  obtain ⟨x0, hx0, hmax⟩ := rowMax_attained eig gmm gmmK y
  obtain ⟨x, hx, hPx, heq⟩ := foldl_write_mem (rowDesc evec junk gmm gmmK y)
    (fun x => rowEig eig gmm gmmK y x = rowMax eig gmm gmmK y) old 32 ⟨x0, hx0, hmax⟩
  exact ⟨x, hx, hPx, heq⟩

/-! Helper lemmas about the weight-normalization and data-term stages. -/

/-- An active cluster record after `GMMcommonTerm`: slot 10 becomes
`count / (sqrtf(det) * S)` where `S` sums the counts of the `gmmK`
clusters of the same parity row; all other slots are kept. -/
theorem commonTerm_active (sqrtf : ℚ → ℚ) (gmmK : ℕ) (gmm : ℕ → GMMRec) (g : ℕ)
    (hg : g / 2 < gmmK) (hK : gmmK ≤ 32) :
    GMMcommonTerm sqrtf gmmK gmm g =
      { gmm g with slot10 := (gmm g).count /
          (sqrtf ((gmm g).slot10) *
            ((List.range gmmK).map (fun x => (gmm (x * 2 + g % 2)).count)).sum) } := by
  simp only [GMMcommonTerm, if_pos hg]
  rw [show mixtureCountSum gmm gmmK (g % 2) =
      ((List.range gmmK).map (fun x => (gmm (x * 2 + g % 2)).count)).sum from
    paddedListSum _ gmmK 32 hK]

/-- An inactive cluster record is untouched by `GMMcommonTerm`. -/
theorem commonTerm_inactive (sqrtf : ℚ → ℚ) (gmmK : ℕ) (gmm : ℕ → GMMRec) (g : ℕ)
    (hg : ¬ g / 2 < gmmK) : GMMcommonTerm sqrtf gmmK gmm g = gmm g := by
  simp only [GMMcommonTerm, if_neg hg]

/-- The parity-row count sum is non-negative when all counts are. -/
theorem mixtureCountSum_nonneg (gmm : ℕ → GMMRec) (gmmK y : ℕ)
    (hcnt : ∀ j, 0 ≤ (gmm j).count) : 0 ≤ mixtureCountSum gmm gmmK y := by
  apply List.sum_nonneg
  intro v hv
  obtain ⟨x, _, rfl⟩ := List.mem_map.mp hv
  by_cases hx : x < gmmK
  · simpa [hx] using hcnt (x * 2 + y)
  · simp [hx]

/-- The common term of an active cluster is non-negative when all counts
are non-negative and `sqrtf` is non-negative. -/
theorem commonTerm_slot10_nonneg (sqrtf : ℚ → ℚ) (gmmK : ℕ) (gmm : ℕ → GMMRec) (g : ℕ)
    (hg : g / 2 < gmmK) (hsq : ∀ t, 0 ≤ sqrtf t) (hcnt : ∀ j, 0 ≤ (gmm j).count) :
    0 ≤ (GMMcommonTerm sqrtf gmmK gmm g).slot10 := by
  simp only [GMMcommonTerm, if_pos hg]
  exact div_nonneg (hcnt g)
    (mul_nonneg (hsq _) (mixtureCountSum_nonneg gmm gmmK (g % 2) hcnt))

/-- A Gaussian response is non-negative when the common term is. -/
theorem GMMTerm_nonneg (expf : ℚ → ℚ) (px : Pixel) (r : GMMRec)
    (hexp : ∀ t, 0 < expf t) (hr : 0 ≤ r.slot10) : 0 ≤ GMMTerm expf px r := by
  simp only [GMMTerm]
  exact mul_nonneg hr (hexp _).le

/-- Each mixture weight computed over the normalized cluster records is
non-negative. -/
theorem mixtureWeight_nonneg (expf sqrtf : ℚ → ℚ) (px : Pixel) (gmm0 : ℕ → GMMRec)
    (gmmK i : ℕ) (hexp : ∀ t, 0 < expf t) (hsq : ∀ t, 0 ≤ sqrtf t)
    (hcnt : ∀ j, 0 ≤ (gmm0 j).count) (hi : i < 2) :
    0 ≤ mixtureWeight expf px (GMMcommonTerm sqrtf gmmK gmm0) (2 * gmmK) i := by
  apply List.sum_nonneg
  intro v hv
  obtain ⟨j, hj, rfl⟩ := List.mem_map.mp hv
  have hj' : j < gmmK := by
    have := List.mem_range.mp hj
    simp only [MIXTURES] at this
    omega
  apply GMMTerm_nonneg _ _ _ hexp
  apply commonTerm_slot10_nonneg _ _ _ _ _ hsq hcnt
  simp only [MIXTURES]
  omega

/-- Core correctness of the per-pixel density evaluation over the
pipeline-produced records: when the total response is positive, the two
per-mixture outputs are non-negative and sum to one. -/
theorem dataTermPixel_core (expf sqrtf : ℚ → ℚ) (gmm0 : ℕ → GMMRec) (gmmK : ℕ)
    (px : Pixel) (hexp : ∀ t, 0 < expf t) (hsq : ∀ t, 0 ≤ sqrtf t)
    (hcnt : ∀ j, 0 ≤ (gmm0 j).count)
    (htot : 0 < weightTotal expf px (GMMcommonTerm sqrtf gmmK gmm0) (2 * gmmK)) :
    (∀ i, i < MIXTURES →
        0 ≤ GMMDataTermPixel expf px (GMMcommonTerm sqrtf gmmK gmm0) (2 * gmmK) i) ∧
      ((List.range MIXTURES).map
        (GMMDataTermPixel expf px (GMMcommonTerm sqrtf gmmK gmm0) (2 * gmmK))).sum = 1 := by
  constructor
  · intro i hi
    exact div_nonneg
      (mixtureWeight_nonneg expf sqrtf px gmm0 gmmK i hexp hsq hcnt
        (by simpa [MIXTURES] using hi))
      htot.le
  · have hr2 : List.range MIXTURES = [0, 1] := rfl
    have hTot : weightTotal expf px (GMMcommonTerm sqrtf gmmK gmm0) (2 * gmmK) =
        mixtureWeight expf px (GMMcommonTerm sqrtf gmmK gmm0) (2 * gmmK) 0 +
          mixtureWeight expf px (GMMcommonTerm sqrtf gmmK gmm0) (2 * gmmK) 1 := by
      simp [weightTotal, hr2]
    rw [hr2]
    simp only [List.map_cons, List.map_nil, List.sum_cons, List.sum_nil,
      GMMDataTermPixel, hTot]
    rw [add_zero, div_add_div_same, div_self]
    rw [hTot] at htot
    exact ne_of_gt htot

/-- The j-loop of `GMMDataTermKernel` visits, for mixture `i`, exactly the
clusters whose index is congruent to `i` modulo `MIXTURES = 2`. -/
theorem mixtureWeight_filter (expf : ℚ → ℚ) (px : Pixel) (gmm : ℕ → GMMRec)
    (m i : ℕ) (hi : i < 2) :
    mixtureWeight expf px gmm (2 * m) i =
      (((List.range (2 * m)).filter (fun j => j % 2 = i)).map
        (fun j => GMMTerm expf px (gmm j))).sum := by
  induction m with
  | zero => simp [mixtureWeight, MIXTURES]
  | succ m ih =>
    have h1 : (2 * (m + 1) + MIXTURES - 1) / MIXTURES = m + 1 := by
      simp only [MIXTURES]
      omega
    have h2 : (2 * m + MIXTURES - 1) / MIXTURES = m := by
      simp only [MIXTURES]
      omega
    have ihs : ((List.range m).map
        (fun j => GMMTerm expf px (gmm (j * MIXTURES + i)))).sum =
        (((List.range (2 * m)).filter (fun j => j % 2 = i)).map
          (fun j => GMMTerm expf px (gmm j))).sum := by
      simpa only [mixtureWeight, h2] using ih
    have hsplit : List.range (2 * (m + 1)) = List.range (2 * m) ++ [2 * m, 2 * m + 1] := by
      have h3 : 2 * (m + 1) = (2 * m + 1) + 1 := by ring
      rw [h3, List.range_succ, List.range_succ]
      simp
    simp only [mixtureWeight, h1]
    rw [List.range_succ, List.map_append, List.sum_append, ihs, hsplit,
      List.filter_append, List.map_append, List.sum_append]
    congr 1
    have e0 : (2 * m) % 2 = 0 := by omega
    have e1 : (2 * m + 1) % 2 = 1 := by omega
    rcases (by omega : i = 0 ∨ i = 1) with rfl | rfl
    · have hidx : m * MIXTURES = 2 * m := by
        simp only [MIXTURES]
        ring
      simp [List.filter_cons, e0, e1, hidx]
    · have hidx : m * MIXTURES + 1 = 2 * m + 1 := by
        simp only [MIXTURES]
        ring
      simp [List.filter_cons, e0, e1, hidx]

/-! Concrete test inputs used by counterexamples and witnesses. -/

/-- A 1x1 image holding the single pixel (0,0,0). -/
def onePixelImage : ℕ → Pixel := fun _ => ⟨0, 0, 0⟩

/-- Its label map: the single pixel is labelled 0. -/
def onePixelAlpha : ℕ → ℤ := fun _ => 0

/-- The sufficient statistics of cluster 0 on that image. -/
def onePixelStats : ℕ → ℚ := gmmStat (clusterPixels 1 1 onePixelImage onePixelAlpha 0)

/-- On the 1x1 test image, cluster 0 holds exactly the pixel (0,0,0). -/
theorem onePixelCluster : clusterPixels 1 1 onePixelImage onePixelAlpha 0 = [⟨0, 0, 0⟩] := by
  simp [clusterPixels, onePixelAlpha, onePixelImage, List.range_succ]

/-- On the 1x1 test image, no pixel is labelled 1. -/
theorem onePixelClusterEmpty : clusterPixels 1 1 onePixelImage onePixelAlpha 1 = [] := by
  simp [clusterPixels, onePixelAlpha, List.range_succ]

/-- Covariance slots finalized from empty statistics: `-epsilon` on the
diagonal, `0` off the diagonal. -/
theorem finalCov_zeroStats :
    finalCov (gmmStat []) 4 = -epsilon ∧ finalCov (gmmStat []) 5 = 0 ∧
    finalCov (gmmStat []) 6 = 0 ∧ finalCov (gmmStat []) 7 = -epsilon ∧
    finalCov (gmmStat []) 8 = 0 ∧ finalCov (gmmStat []) 9 = -epsilon := by
  refine ⟨?_, ?_, ?_, ?_, ?_, ?_⟩ <;>
    norm_num [finalCov, finalMean, norm_factor, gmmStat]

/-- Determinant finalized from empty statistics: `-(epsilon^3)`. -/
theorem finalDet_zeroStats : finalDet (gmmStat []) = -(epsilon * epsilon * epsilon) := by
  obtain ⟨h4, h5, h6, h7, h8, h9⟩ := finalCov_zeroStats
  rw [finalDet_eq, h4, h5, h6, h7, h8, h9]
  ring

/-- Inverse-covariance slots finalized from empty statistics are all zero
(the determinant guard fires). -/
theorem finalInv_zeroStats (tx : ℕ) : finalInv (gmmStat []) tx = 0 := by
  have hdet : ¬ (0 < finalDet (gmmStat [])) := by
    rw [finalDet_zeroStats]
    norm_num [epsilon]
  simp [finalInv, hdet]

/-! Claims C2, C3, C4, C9 about the finalization stage. -/

/-- Claim C2, counterexample to the claim as stated: on a cluster holding
the single pixel (0,0,0), the claim's formula predicts diagonal covariance
`sum_xx/count - mean_x^2 + 1e-3 = 1/1000`, but the kernel stores `-1/1000`
(the epsilon is subtracted, not added). -/
theorem c2_counterexample :
    ¬ ((GMMFinalizeKernel onePixelStats false).q4 =
        onePixelStats 4 / onePixelStats 0 -
          (GMMFinalizeKernel onePixelStats false).mean1 *
            (GMMFinalizeKernel onePixelStats false).mean1 + epsilon) := by
  have hs : onePixelStats = gmmStat [⟨0, 0, 0⟩] := by
    rw [onePixelStats, onePixelCluster]
  rw [hs]
  norm_num [GMMFinalizeKernel, finalCov, finalMean, norm_factor, gmmStat,
    get_component, epsilon]

/-- Claim C2 (amended): for every cluster with positive pixel count,
finalization sets each mean component to the raw sum divided by the count,
and each covariance entry to `sum_cross/count - mean_i*mean_j`, with the
fixed epsilon of 1e-3 SUBTRACTED from (not added to) each of the three
diagonal covariance entries. -/
theorem c2_finalize_formulas (s : ℕ → ℚ) (hs : 0 < s 0) :
    (GMMFinalizeKernel s false).count = s 0 ∧
    (GMMFinalizeKernel s false).mean1 = s 1 / s 0 ∧
    (GMMFinalizeKernel s false).mean2 = s 2 / s 0 ∧
    (GMMFinalizeKernel s false).mean3 = s 3 / s 0 ∧
    (GMMFinalizeKernel s false).q4 =
      s 4 / s 0 - (s 1 / s 0) * (s 1 / s 0) - epsilon ∧
    (GMMFinalizeKernel s false).q5 = s 5 / s 0 - (s 1 / s 0) * (s 2 / s 0) ∧
    (GMMFinalizeKernel s false).q6 = s 6 / s 0 - (s 1 / s 0) * (s 3 / s 0) ∧
    (GMMFinalizeKernel s false).q7 =
      s 7 / s 0 - (s 2 / s 0) * (s 2 / s 0) - epsilon ∧
    (GMMFinalizeKernel s false).q8 = s 8 / s 0 - (s 2 / s 0) * (s 3 / s 0) ∧
    (GMMFinalizeKernel s false).q9 =
      s 9 / s 0 - (s 3 / s 0) * (s 3 / s 0) - epsilon := by
  obtain ⟨h4, h5, h6, h7, h8, h9⟩ := finalCov_eq s hs
  refine ⟨?_, ?_, ?_, ?_, ?_, ?_, ?_, ?_, ?_, ?_⟩ <;>
    simp [GMMFinalizeKernel, finalMean_eq s hs, h4, h5, h6, h7, h8, h9]

/-- Witness for claim C2's amended statement at the concrete statistics
`s = (2, 0, 0, 0, 0, ...)`. -/
theorem c2_witness :
    (GMMFinalizeKernel (fun i => if i = 0 then (2:ℚ) else 0) false).count =
        (fun i => if i = 0 then (2:ℚ) else 0) 0 ∧
    (GMMFinalizeKernel (fun i => if i = 0 then (2:ℚ) else 0) false).mean1 =
        (fun i => if i = 0 then (2:ℚ) else 0) 1 /
          (fun i => if i = 0 then (2:ℚ) else 0) 0 ∧
    (GMMFinalizeKernel (fun i => if i = 0 then (2:ℚ) else 0) false).mean2 =
        (fun i => if i = 0 then (2:ℚ) else 0) 2 /
          (fun i => if i = 0 then (2:ℚ) else 0) 0 ∧
    (GMMFinalizeKernel (fun i => if i = 0 then (2:ℚ) else 0) false).mean3 =
        (fun i => if i = 0 then (2:ℚ) else 0) 3 /
          (fun i => if i = 0 then (2:ℚ) else 0) 0 ∧
    (GMMFinalizeKernel (fun i => if i = 0 then (2:ℚ) else 0) false).q4 =
        (fun i => if i = 0 then (2:ℚ) else 0) 4 /
            (fun i => if i = 0 then (2:ℚ) else 0) 0 -
          ((fun i => if i = 0 then (2:ℚ) else 0) 1 /
              (fun i => if i = 0 then (2:ℚ) else 0) 0) *
            ((fun i => if i = 0 then (2:ℚ) else 0) 1 /
              (fun i => if i = 0 then (2:ℚ) else 0) 0) - epsilon ∧
    (GMMFinalizeKernel (fun i => if i = 0 then (2:ℚ) else 0) false).q5 =
        (fun i => if i = 0 then (2:ℚ) else 0) 5 /
            (fun i => if i = 0 then (2:ℚ) else 0) 0 -
          ((fun i => if i = 0 then (2:ℚ) else 0) 1 /
              (fun i => if i = 0 then (2:ℚ) else 0) 0) *
            ((fun i => if i = 0 then (2:ℚ) else 0) 2 /
              (fun i => if i = 0 then (2:ℚ) else 0) 0) ∧
    (GMMFinalizeKernel (fun i => if i = 0 then (2:ℚ) else 0) false).q6 =
        (fun i => if i = 0 then (2:ℚ) else 0) 6 /
            (fun i => if i = 0 then (2:ℚ) else 0) 0 -
          ((fun i => if i = 0 then (2:ℚ) else 0) 1 /
              (fun i => if i = 0 then (2:ℚ) else 0) 0) *
            ((fun i => if i = 0 then (2:ℚ) else 0) 3 /
              (fun i => if i = 0 then (2:ℚ) else 0) 0) ∧
    (GMMFinalizeKernel (fun i => if i = 0 then (2:ℚ) else 0) false).q7 =
        (fun i => if i = 0 then (2:ℚ) else 0) 7 /
            (fun i => if i = 0 then (2:ℚ) else 0) 0 -
          ((fun i => if i = 0 then (2:ℚ) else 0) 2 /
              (fun i => if i = 0 then (2:ℚ) else 0) 0) *
            ((fun i => if i = 0 then (2:ℚ) else 0) 2 /
              (fun i => if i = 0 then (2:ℚ) else 0) 0) - epsilon ∧
    (GMMFinalizeKernel (fun i => if i = 0 then (2:ℚ) else 0) false).q8 =
        (fun i => if i = 0 then (2:ℚ) else 0) 8 /
            (fun i => if i = 0 then (2:ℚ) else 0) 0 -
          ((fun i => if i = 0 then (2:ℚ) else 0) 2 /
              (fun i => if i = 0 then (2:ℚ) else 0) 0) *
            ((fun i => if i = 0 then (2:ℚ) else 0) 3 /
              (fun i => if i = 0 then (2:ℚ) else 0) 0) ∧
    (GMMFinalizeKernel (fun i => if i = 0 then (2:ℚ) else 0) false).q9 =
        (fun i => if i = 0 then (2:ℚ) else 0) 9 /
            (fun i => if i = 0 then (2:ℚ) else 0) 0 -
          ((fun i => if i = 0 then (2:ℚ) else 0) 3 /
              (fun i => if i = 0 then (2:ℚ) else 0) 0) *
            ((fun i => if i = 0 then (2:ℚ) else 0) 3 /
              (fun i => if i = 0 then (2:ℚ) else 0) 0) - epsilon :=
  c2_finalize_formulas (fun i => if i = 0 then (2:ℚ) else 0) (by norm_num)

/-- Claim C3, counterexample to the claim as stated: after finalization of
a cluster holding the single pixel (0,0,0), the stored covariance matrix is
`-epsilon * I`, which is not positive semi-definite (its quadratic form at
(1,0,0) is `-1/1000 < 0`). -/
theorem c3_counterexample :
    ¬ (∀ a b c : ℚ, 0 ≤ quadForm
        (GMMFinalizeKernel onePixelStats false).q4
        (GMMFinalizeKernel onePixelStats false).q5
        (GMMFinalizeKernel onePixelStats false).q6
        (GMMFinalizeKernel onePixelStats false).q7
        (GMMFinalizeKernel onePixelStats false).q8
        (GMMFinalizeKernel onePixelStats false).q9 a b c) := by
  intro hPSD
  have h := hPSD 1 0 0
  have hs : onePixelStats = gmmStat [⟨0, 0, 0⟩] := by
    rw [onePixelStats, onePixelCluster]
  rw [hs] at h
  norm_num [GMMFinalizeKernel, quadForm, finalCov, finalMean, norm_factor,
    gmmStat, get_component, epsilon] at h

/-- Claim C3 (amended): for every input image, label map and cluster, the
finalized covariance matrix plus `epsilon` on each diagonal entry (that is,
the exact sample covariance, undoing the subtracted regularization) is
positive semi-definite; the stored matrix itself can be indefinite. -/
theorem c3_regularized_psd (w h : ℕ) (image : ℕ → Pixel) (alpha : ℕ → ℤ)
    (idx : ℤ) (a b c : ℚ) :
    0 ≤ quadForm
      ((GMMFinalizeKernel (gmmStat (clusterPixels w h image alpha idx)) false).q4 + epsilon)
      (GMMFinalizeKernel (gmmStat (clusterPixels w h image alpha idx)) false).q5
      (GMMFinalizeKernel (gmmStat (clusterPixels w h image alpha idx)) false).q6
      ((GMMFinalizeKernel (gmmStat (clusterPixels w h image alpha idx)) false).q7 + epsilon)
      (GMMFinalizeKernel (gmmStat (clusterPixels w h image alpha idx)) false).q8
      ((GMMFinalizeKernel (gmmStat (clusterPixels w h image alpha idx)) false).q9 + epsilon)
      a b c := by
  rcases eq_or_ne (clusterPixels w h image alpha idx) [] with hL | hL
  · rw [hL]
    obtain ⟨h4, h5, h6, h7, h8, h9⟩ := finalCov_zeroStats
    simp only [GMMFinalizeKernel, Bool.false_eq_true, if_false, h4, h5, h6, h7, h8, h9]
    norm_num [quadForm]
  · have hpsd := sampleCov_psd (clusterPixels w h image alpha idx) hL a b c
    simpa only [GMMFinalizeKernel, Bool.false_eq_true, if_false] using hpsd

/-- Claim C4, counterexample to the claim as stated: a cluster with zero
assigned pixels does not finalize to all-zero statistics: its diagonal
covariance entries are `-1/1000` and its determinant is `-(1/1000)^3`. -/
theorem c4_counterexample :
    (GMMFinalizeKernel (gmmStat (clusterPixels 1 1 onePixelImage onePixelAlpha 1)) false).q4 ≠ 0 ∧
    (GMMFinalizeKernel (gmmStat (clusterPixels 1 1 onePixelImage onePixelAlpha 1)) false).slot10 ≠ 0 := by
  rw [onePixelClusterEmpty]
  obtain ⟨h4, _, _, _, _, _⟩ := finalCov_zeroStats
  constructor
  · simp only [GMMFinalizeKernel, Bool.false_eq_true, if_false, h4]
    norm_num [epsilon]
  · simp only [GMMFinalizeKernel, Bool.false_eq_true, if_false, finalDet_zeroStats]
    norm_num [epsilon]

/-- Claim C4 (amended): a cluster with zero assigned pixels finalizes to
zero count, zero means, zero off-diagonal covariance, `-epsilon` diagonal
covariance, determinant `-(epsilon^3) < 0`, and all-zero inverse covariance
(the determinant guard fires); after `GMMcommonTerm` its common term is `0`
(zero numerator) and its Gaussian response `GMMTerm` at every pixel is
exactly `0` in the exact-arithmetic model. -/
theorem c4_zero_count (w h : ℕ) (image : ℕ → Pixel) (alpha : ℕ → ℤ) (idx : ℤ)
    (hnone : ∀ p, p < w * h → alpha p ≠ idx) :
    (GMMFinalizeKernel (gmmStat (clusterPixels w h image alpha idx)) false).count = 0 ∧
    (GMMFinalizeKernel (gmmStat (clusterPixels w h image alpha idx)) false).mean1 = 0 ∧
    (GMMFinalizeKernel (gmmStat (clusterPixels w h image alpha idx)) false).mean2 = 0 ∧
    (GMMFinalizeKernel (gmmStat (clusterPixels w h image alpha idx)) false).mean3 = 0 ∧
    (GMMFinalizeKernel (gmmStat (clusterPixels w h image alpha idx)) false).q4 = -epsilon ∧
    (GMMFinalizeKernel (gmmStat (clusterPixels w h image alpha idx)) false).q5 = 0 ∧
    (GMMFinalizeKernel (gmmStat (clusterPixels w h image alpha idx)) false).q6 = 0 ∧
    (GMMFinalizeKernel (gmmStat (clusterPixels w h image alpha idx)) false).q7 = -epsilon ∧
    (GMMFinalizeKernel (gmmStat (clusterPixels w h image alpha idx)) false).q8 = 0 ∧
    (GMMFinalizeKernel (gmmStat (clusterPixels w h image alpha idx)) false).q9 = -epsilon ∧
    (GMMFinalizeKernel (gmmStat (clusterPixels w h image alpha idx)) false).slot10 =
      -(epsilon * epsilon * epsilon) ∧
    (GMMFinalizeKernel (gmmStat (clusterPixels w h image alpha idx)) false).slot10 < 0 ∧
    (GMMFinalizeKernel (gmmStat (clusterPixels w h image alpha idx)) true).q4 = 0 ∧
    (GMMFinalizeKernel (gmmStat (clusterPixels w h image alpha idx)) true).q5 = 0 ∧
    (GMMFinalizeKernel (gmmStat (clusterPixels w h image alpha idx)) true).q6 = 0 ∧
    (GMMFinalizeKernel (gmmStat (clusterPixels w h image alpha idx)) true).q7 = 0 ∧
    (GMMFinalizeKernel (gmmStat (clusterPixels w h image alpha idx)) true).q8 = 0 ∧
    (GMMFinalizeKernel (gmmStat (clusterPixels w h image alpha idx)) true).q9 = 0 ∧
    (∀ (sqrtf : ℚ → ℚ) (gmmK : ℕ) (gmm : ℕ → GMMRec) (g : ℕ),
      gmm g = GMMFinalizeKernel (gmmStat (clusterPixels w h image alpha idx)) true →
      g / 2 < gmmK →
      (GMMcommonTerm sqrtf gmmK gmm g).slot10 = 0 ∧
      ∀ (expf : ℚ → ℚ) (px : Pixel),
        GMMTerm expf px (GMMcommonTerm sqrtf gmmK gmm g) = 0) := by
  have hL : clusterPixels w h image alpha idx = [] := by
    rw [clusterPixels, List.map_eq_nil]
    rw [List.filter_eq_nil]
    intro p hp
    have hplt : p < w * h := List.mem_range.mp hp
    simp [hnone p hplt]
  rw [hL]
  have hcount : gmmStat ([] : List Pixel) 0 = 0 := rfl
  have hc0 : (GMMFinalizeKernel (gmmStat ([] : List Pixel)) true).count = 0 := by
    simp [GMMFinalizeKernel, hcount]
  obtain ⟨h4, h5, h6, h7, h8, h9⟩ := finalCov_zeroStats
  refine ⟨?_, ?_, ?_, ?_, ?_, ?_, ?_, ?_, ?_, ?_, ?_, ?_, ?_, ?_, ?_, ?_, ?_, ?_, ?_⟩
  · simp [GMMFinalizeKernel, hcount]
  · norm_num [GMMFinalizeKernel, finalMean, norm_factor, gmmStat]
  · norm_num [GMMFinalizeKernel, finalMean, norm_factor, gmmStat]
  · norm_num [GMMFinalizeKernel, finalMean, norm_factor, gmmStat]
  · simp only [GMMFinalizeKernel, Bool.false_eq_true, if_false, h4]
  · simp only [GMMFinalizeKernel, Bool.false_eq_true, if_false, h5]
  · simp only [GMMFinalizeKernel, Bool.false_eq_true, if_false, h6]
  · simp only [GMMFinalizeKernel, Bool.false_eq_true, if_false, h7]
  · simp only [GMMFinalizeKernel, Bool.false_eq_true, if_false, h8]
  · simp only [GMMFinalizeKernel, Bool.false_eq_true, if_false, h9]
  · simp only [GMMFinalizeKernel, Bool.false_eq_true, if_false, finalDet_zeroStats]
  · simp only [GMMFinalizeKernel, Bool.false_eq_true, if_false, finalDet_zeroStats]
    norm_num [epsilon]
  · simp [GMMFinalizeKernel, finalInv_zeroStats]
  · simp [GMMFinalizeKernel, finalInv_zeroStats]
  · simp [GMMFinalizeKernel, finalInv_zeroStats]
  · simp [GMMFinalizeKernel, finalInv_zeroStats]
  · simp [GMMFinalizeKernel, finalInv_zeroStats]
  · simp [GMMFinalizeKernel, finalInv_zeroStats]
  · intro sqrtf gmmK gmm g hgmm hg
    have hslot : (GMMcommonTerm sqrtf gmmK gmm g).slot10 = 0 := by
      simp only [GMMcommonTerm, if_pos hg]
      rw [hgmm, hc0]
      exact zero_div _
    refine ⟨hslot, ?_⟩
    intro expf px
    simp only [GMMTerm]
    rw [hslot]
    exact zero_mul _

/-- Witness for claim C4's amended statement on the concrete 1x1 image
whose single pixel is labelled 0, evaluating cluster 1 (zero pixels): the
finalized record is as described and its density contribution vanishes. -/
theorem c4_witness :
    (GMMFinalizeKernel (gmmStat (clusterPixels 1 1 onePixelImage onePixelAlpha 1)) false).q4 =
        -epsilon ∧
    (GMMFinalizeKernel (gmmStat (clusterPixels 1 1 onePixelImage onePixelAlpha 1)) false).slot10 <
        0 :=
  ⟨(c4_zero_count 1 1 onePixelImage onePixelAlpha 1
      (by intro p _; norm_num [onePixelAlpha])).2.2.2.2.1,
   (c4_zero_count 1 1 onePixelImage onePixelAlpha 1
      (by intro p _; norm_num [onePixelAlpha])).2.2.2.2.2.2.2.2.2.2.2.1⟩

/-- Claim C9: in finalization, the stored determinant (slot 10, decoded
through `det_indices`) equals the closed-form symmetric 3x3 determinant of
the covariance entries; the six inverse-covariance entries are the
closed-form cofactor/determinant ratios when the determinant is strictly
positive, and all six are set to zero when the determinant is less than or
equal to zero (handled locally, no error). -/
theorem c9_inverse_guard (s : ℕ → ℚ) :
    (GMMFinalizeKernel s true).slot10 =
      (GMMFinalizeKernel s false).q4 * (GMMFinalizeKernel s false).q7 *
          (GMMFinalizeKernel s false).q9 +
        2 * ((GMMFinalizeKernel s false).q5 * (GMMFinalizeKernel s false).q6 *
          (GMMFinalizeKernel s false).q8) -
        (GMMFinalizeKernel s false).q6 * (GMMFinalizeKernel s false).q6 *
          (GMMFinalizeKernel s false).q7 -
        (GMMFinalizeKernel s false).q4 * (GMMFinalizeKernel s false).q8 *
          (GMMFinalizeKernel s false).q8 -
        (GMMFinalizeKernel s false).q9 * (GMMFinalizeKernel s false).q5 *
          (GMMFinalizeKernel s false).q5 ∧
    (0 < (GMMFinalizeKernel s true).slot10 →
      (GMMFinalizeKernel s true).q4 =
        ((GMMFinalizeKernel s false).q7 * (GMMFinalizeKernel s false).q9 -
          (GMMFinalizeKernel s false).q8 * (GMMFinalizeKernel s false).q8) /
          (GMMFinalizeKernel s true).slot10 ∧
      (GMMFinalizeKernel s true).q5 =
        ((GMMFinalizeKernel s false).q6 * (GMMFinalizeKernel s false).q8 -
          (GMMFinalizeKernel s false).q5 * (GMMFinalizeKernel s false).q9) /
          (GMMFinalizeKernel s true).slot10 ∧
      (GMMFinalizeKernel s true).q6 =
        ((GMMFinalizeKernel s false).q5 * (GMMFinalizeKernel s false).q8 -
          (GMMFinalizeKernel s false).q6 * (GMMFinalizeKernel s false).q7) /
          (GMMFinalizeKernel s true).slot10 ∧
      (GMMFinalizeKernel s true).q7 =
        ((GMMFinalizeKernel s false).q4 * (GMMFinalizeKernel s false).q9 -
          (GMMFinalizeKernel s false).q6 * (GMMFinalizeKernel s false).q6) /
          (GMMFinalizeKernel s true).slot10 ∧
      (GMMFinalizeKernel s true).q8 =
        ((GMMFinalizeKernel s false).q5 * (GMMFinalizeKernel s false).q6 -
          (GMMFinalizeKernel s false).q4 * (GMMFinalizeKernel s false).q8) /
          (GMMFinalizeKernel s true).slot10 ∧
      (GMMFinalizeKernel s true).q9 =
        ((GMMFinalizeKernel s false).q4 * (GMMFinalizeKernel s false).q7 -
          (GMMFinalizeKernel s false).q5 * (GMMFinalizeKernel s false).q5) /
          (GMMFinalizeKernel s true).slot10) ∧
    ((GMMFinalizeKernel s true).slot10 ≤ 0 →
      (GMMFinalizeKernel s true).q4 = 0 ∧ (GMMFinalizeKernel s true).q5 = 0 ∧
      (GMMFinalizeKernel s true).q6 = 0 ∧ (GMMFinalizeKernel s true).q7 = 0 ∧
      (GMMFinalizeKernel s true).q8 = 0 ∧ (GMMFinalizeKernel s true).q9 = 0) := by
  obtain ⟨t0, t1, t2, t3, t4, t5⟩ := invTemp_eq s
  refine ⟨?_, ?_, ?_⟩
  · simp only [GMMFinalizeKernel, if_true, Bool.false_eq_true, if_false]
    exact finalDet_eq s
  · intro hdet
    simp only [GMMFinalizeKernel, if_true, Bool.false_eq_true, if_false] at hdet ⊢
    refine ⟨?_, ?_, ?_, ?_, ?_, ?_⟩ <;>
      simp only [finalInv, if_pos hdet, t0, t1, t2, t3, t4, t5]
  · intro hdet
    simp only [GMMFinalizeKernel, if_true, Bool.false_eq_true, if_false] at hdet ⊢
    have hneg : ¬ 0 < finalDet s := not_lt.mpr hdet
    refine ⟨?_, ?_, ?_, ?_, ?_, ?_⟩ <;> simp only [finalInv, if_neg hneg]

/-- Witness for claim C9 at concrete statistics with positive determinant
(count 1, second moments 2 on the diagonal): the stored inverse entry q4
equals the cofactor/determinant ratio. -/
theorem c9_witness :
    (GMMFinalizeKernel (fun i => if i = 0 then (1:ℚ) else
        if i = 4 then 2 else if i = 7 then 2 else if i = 9 then 2 else 0) true).q4 =
      ((GMMFinalizeKernel (fun i => if i = 0 then (1:ℚ) else
          if i = 4 then 2 else if i = 7 then 2 else if i = 9 then 2 else 0) false).q7 *
        (GMMFinalizeKernel (fun i => if i = 0 then (1:ℚ) else
          if i = 4 then 2 else if i = 7 then 2 else if i = 9 then 2 else 0) false).q9 -
        (GMMFinalizeKernel (fun i => if i = 0 then (1:ℚ) else
          if i = 4 then 2 else if i = 7 then 2 else if i = 9 then 2 else 0) false).q8 *
        (GMMFinalizeKernel (fun i => if i = 0 then (1:ℚ) else
          if i = 4 then 2 else if i = 7 then 2 else if i = 9 then 2 else 0) false).q8) /
        (GMMFinalizeKernel (fun i => if i = 0 then (1:ℚ) else
          if i = 4 then 2 else if i = 7 then 2 else if i = 9 then 2 else 0) true).slot10 :=
  ((c9_inverse_guard (fun i => if i = 0 then (1:ℚ) else
      if i = 4 then 2 else if i = 7 then 2 else if i = 9 then 2 else 0)).2.1
    (by
      simp only [GMMFinalizeKernel, if_true, Bool.false_eq_true, if_false]
      rw [finalDet_eq]
      norm_num [finalCov, finalMean, norm_factor, epsilon])).1

/-! Claims C1 and C5 about the density-evaluation stage. -/

/-- A concrete cluster record: count 1, zero means and inverse covariance,
determinant slot 1. -/
def unitRec : GMMRec := ⟨1, 0, 0, 0, 0, 0, 0, 0, 0, 0, 1⟩

/-- Claim C1: for every pixel at which the per-pixel total of mixture
responses is positive, the probabilities produced by the density-evaluation
stage (`GMMDataTermKernel`'s per-pixel computation, applied to the records
normalized by `GMMcommonTerm` from non-negative counts) are non-negative
and sum to 1 across the `MIXTURES` top-level mixtures. -/
theorem c1_dataterm_probabilities (expf sqrtf : ℚ → ℚ) (gmm0 : ℕ → GMMRec)
    (gmmK : ℕ) (px : Pixel) (hexp : ∀ t, 0 < expf t) (hsq : ∀ t, 0 ≤ sqrtf t)
    (hcnt : ∀ j, 0 ≤ (gmm0 j).count)
    (htot : 0 < weightTotal expf px (GMMcommonTerm sqrtf gmmK gmm0) (2 * gmmK)) :
    (∀ i, i < MIXTURES →
        0 ≤ GMMDataTermPixel expf px (GMMcommonTerm sqrtf gmmK gmm0) (2 * gmmK) i) ∧
      ((List.range MIXTURES).map
        (GMMDataTermPixel expf px (GMMcommonTerm sqrtf gmmK gmm0) (2 * gmmK))).sum = 1 :=
  dataTermPixel_core expf sqrtf gmm0 gmmK px hexp hsq hcnt htot

/-- Witness for claim C1 at `expf = sqrtf = 1`, one cluster pair of
`unitRec` records: both probabilities are 1/2. -/
theorem c1_witness :
    (∀ i, i < MIXTURES →
        0 ≤ GMMDataTermPixel (fun _ => 1) ⟨0, 0, 0⟩
          (GMMcommonTerm (fun _ => 1) 1 (fun _ => unitRec)) (2 * 1) i) ∧
      ((List.range MIXTURES).map
        (GMMDataTermPixel (fun _ => 1) ⟨0, 0, 0⟩
          (GMMcommonTerm (fun _ => 1) 1 (fun _ => unitRec)) (2 * 1))).sum = 1 :=
  c1_dataterm_probabilities (fun _ => 1) (fun _ => 1) (fun _ => unitRec) 1 ⟨0, 0, 0⟩
    (fun _ => one_pos) (fun _ => zero_le_one) (fun _ => by norm_num [unitRec])
    (by
      have hct : ∀ g, g / 2 < 1 →
          (GMMcommonTerm (fun _ => (1:ℚ)) 1 (fun _ => unitRec) g).slot10 = 1 := by
        intro g hg
        rw [commonTerm_active _ _ _ _ hg (by norm_num)]
        norm_num [unitRec, List.range_succ]
      have h0 : (GMMcommonTerm (fun _ => (1:ℚ)) 1 (fun _ => unitRec) 0).slot10 = 1 :=
        hct 0 (by norm_num)
      have h1 : (GMMcommonTerm (fun _ => (1:ℚ)) 1 (fun _ => unitRec) 1).slot10 = 1 :=
        hct 1 (by norm_num)
      have hcnt2 : (2 * 1 + MIXTURES - 1) / MIXTURES = 1 := by norm_num [MIXTURES]
      simp only [weightTotal, mixtureWeight, hcnt2, MIXTURES, List.range_succ,
        List.range_zero, List.nil_append, List.cons_append, List.map_cons,
        List.map_nil, List.sum_cons, List.sum_nil, GMMTerm]
      norm_num [h0, h1])

/-- Claim C5, counterexample to the claim as stated: with `mixture_count =
4` top-level mixtures requested (`gmmN = 4`, `gaussians_per_mixture = 1`,
`4 = 2*2` reachable by doubling), on a 1x1 image the data-term stage writes
only the fixed `MIXTURES = 2` slices; the mixture-axis values of the single
pixel sum to 11, not 1, when the uninitialized output buffer holds 5, and
the slice for mixture 2 still holds the uninitialized value. -/
theorem c5_counterexample :
    ((List.range 4).map (fun i =>
        GMMDataTermKernel (fun _ => 1) (fun _ => unitRec) 4 1 1 (fun _ => ⟨0, 0, 0⟩)
          (fun _ => 5) (0 + i * (1 * 1)))).sum ≠ 1 ∧
      GMMDataTermKernel (fun _ => 1) (fun _ => unitRec) 4 1 1 (fun _ => ⟨0, 0, 0⟩)
        (fun _ => 5) (0 + 2 * (1 * 1)) = 5 := by
  constructor <;>
    norm_num [GMMDataTermKernel, GMMDataTermPixel, weightTotal, mixtureWeight,
      GMMTerm, MIXTURES, List.range_succ, unitRec]

/-- Claim C5 (amended): the data-term stage computes over the fixed
`MIXTURES = 2` top-level mixtures regardless of the caller-supplied
mixture count: every buffer position at or past `2*w*h` keeps its previous
(uninitialized) content; and for the two computed slices, the two values of
each pixel are non-negative and sum to 1 whenever the total response is
positive (over pipeline-normalized records). -/
theorem c5_fixed_mixtures :
    (∀ (expf : ℚ → ℚ) (gmm : ℕ → GMMRec) (gmmN w h : ℕ) (image : ℕ → Pixel)
        (out0 : ℕ → ℚ) (n : ℕ), MIXTURES * (w * h) ≤ n →
        GMMDataTermKernel expf gmm gmmN w h image out0 n = out0 n) ∧
    (∀ (expf sqrtf : ℚ → ℚ) (gmm0 : ℕ → GMMRec) (gmmK w h : ℕ)
        (image : ℕ → Pixel) (out0 : ℕ → ℚ) (p : ℕ),
        (∀ t, 0 < expf t) → (∀ t, 0 ≤ sqrtf t) → (∀ j, 0 ≤ (gmm0 j).count) →
        p < w * h →
        0 < weightTotal expf (image p) (GMMcommonTerm sqrtf gmmK gmm0) (2 * gmmK) →
        (∀ i, i < MIXTURES →
          0 ≤ GMMDataTermKernel expf (GMMcommonTerm sqrtf gmmK gmm0) (2 * gmmK)
            w h image out0 (p + i * (w * h))) ∧
        ((List.range MIXTURES).map (fun i =>
          GMMDataTermKernel expf (GMMcommonTerm sqrtf gmmK gmm0) (2 * gmmK)
            w h image out0 (p + i * (w * h)))).sum = 1) := by
  constructor
  · intro expf gmm gmmN w h image out0 n hn
    simp only [GMMDataTermKernel, if_neg (not_lt.mpr hn)]
  · intro expf sqrtf gmm0 gmmK w h image out0 p hexp hsq hcnt hp htot
    have hwh : 0 < w * h := Nat.lt_of_le_of_lt (Nat.zero_le p) hp
    have hidx : ∀ i, i < MIXTURES →
        GMMDataTermKernel expf (GMMcommonTerm sqrtf gmmK gmm0) (2 * gmmK)
          w h image out0 (p + i * (w * h)) =
        GMMDataTermPixel expf (image p) (GMMcommonTerm sqrtf gmmK gmm0) (2 * gmmK) i := by
      intro i hi
      have hlt : p + i * (w * h) < MIXTURES * (w * h) := by
        calc p + i * (w * h) < w * h + i * (w * h) := Nat.add_lt_add_right hp _
          _ = (i + 1) * (w * h) := by ring
          _ ≤ MIXTURES * (w * h) := Nat.mul_le_mul_right _ hi
      simp only [GMMDataTermKernel, if_pos hlt]
      rw [Nat.add_mul_mod_self_right, Nat.mod_eq_of_lt hp,
        Nat.add_mul_div_right _ _ hwh, Nat.div_eq_of_lt hp, Nat.zero_add]
    obtain ⟨hnn, hsum⟩ := dataTermPixel_core expf sqrtf gmm0 gmmK (image p)
      hexp hsq hcnt htot
    constructor
    · intro i hi
      rw [hidx i hi]
      exact hnn i hi
    · have hmap : (List.range MIXTURES).map (fun i =>
          GMMDataTermKernel expf (GMMcommonTerm sqrtf gmmK gmm0) (2 * gmmK)
            w h image out0 (p + i * (w * h))) =
          (List.range MIXTURES).map
            (GMMDataTermPixel expf (image p) (GMMcommonTerm sqrtf gmmK gmm0) (2 * gmmK)) := by
        apply List.map_congr_left
        intro i hi
        exact hidx i (List.mem_range.mp hi)
      rw [hmap]
      exact hsum

/-- Witness for claim C5's amended statement: position 2 (past the two
computed slices of the 1x1 image) keeps its uninitialized content. -/
theorem c5_witness :
    GMMDataTermKernel (fun _ => 1) (fun _ => unitRec) 4 1 1 (fun _ => ⟨0, 0, 0⟩)
      (fun _ => 7) 2 = (fun _ => (7:ℚ)) 2 :=
  c5_fixed_mixtures.1 (fun _ => 1) (fun _ => unitRec) 4 1 1 (fun _ => ⟨0, 0, 0⟩)
    (fun _ => 7) 2 (by norm_num [MIXTURES])

/-! Claim C6 about the weight-normalization stage. -/

/-- Claim C6, counterexample to the claim as stated: with `gmmK = 3`
sub-clusters per mixture (six records, all with count 1 and determinant 1)
and `sqrtf = id`, the stored common term of cluster 0 is
`1 / (1 * 3) = 1/3` — the denominator uses the combined count of all THREE
same-parity clusters, which is NOT `count_0 / (sqrt(det_0) * (count_0 +
count_j))` for any sibling `j` of the same parity (that would be 1/2). -/
theorem c6_counterexample :
    (GMMcommonTerm (fun t => t) 3 (fun _ => unitRec) 0).slot10 = 1 / 3 ∧
    ¬ ∃ j, j < 2 * 3 ∧ j ≠ 0 ∧ j % 2 = 0 % 2 ∧
      (GMMcommonTerm (fun t => t) 3 (fun _ => unitRec) 0).slot10 =
        ((fun _ => unitRec) 0 : GMMRec).count /
          ((fun t => t) (((fun _ => unitRec) 0 : GMMRec).slot10) *
            (((fun _ => unitRec) 0 : GMMRec).count +
              ((fun _ => unitRec) j : GMMRec).count)) := by
  have hval : (GMMcommonTerm (fun t => t) 3 (fun _ => unitRec) 0).slot10 = 1 / 3 := by
    rw [commonTerm_active _ _ _ _ (by norm_num) (by norm_num)]
    norm_num [unitRec, List.range_succ]
  refine ⟨hval, ?_⟩
  rintro ⟨j, _, _, _, heq⟩
  rw [hval] at heq
  norm_num [unitRec] at heq

/-- Claim C6 (amended): `GMMcommonTerm` overwrites slot 10 (the
determinant slot, which `GMMTerm` subsequently reads as the common term) of
every active cluster `g` with `count_g / (sqrt(det_g) * S)`, where `S` is
the combined pixel count of ALL `gmmK` clusters of `g`'s parity class (the
whole top-level mixture — this coincides with the claimed sibling pair
exactly when `gmmK = 2`); all other record fields, and all inactive
records, are unchanged. -/
theorem c6_common_term (sqrtf : ℚ → ℚ) (gmmK : ℕ) (gmm : ℕ → GMMRec) (g : ℕ)
    (hg : g / 2 < gmmK) (hK : gmmK ≤ 32) :
    GMMcommonTerm sqrtf gmmK gmm g =
      { gmm g with slot10 := (gmm g).count /
          (sqrtf ((gmm g).slot10) *
            ((List.range gmmK).map (fun x => (gmm (x * 2 + g % 2)).count)).sum) } ∧
    (∀ g', ¬ g' / 2 < gmmK → GMMcommonTerm sqrtf gmmK gmm g' = gmm g') :=
  ⟨commonTerm_active sqrtf gmmK gmm g hg hK,
   fun g' hg' => commonTerm_inactive sqrtf gmmK gmm g' hg'⟩

/-- Witness for claim C6's amended statement at `gmmK = 1`, all-`unitRec`
records, `sqrtf = id`. -/
theorem c6_witness :
    GMMcommonTerm (fun t => t) 1 (fun _ => unitRec) 0 =
      { (fun _ => unitRec) 0 with slot10 := ((fun _ => unitRec) 0 : GMMRec).count /
          ((fun t => t) (((fun _ => unitRec) 0 : GMMRec).slot10) *
            ((List.range 1).map
              (fun x => ((fun _ => unitRec) (x * 2 + 0 % 2) : GMMRec).count)).sum) } :=
  (c6_common_term (fun t => t) 1 (fun _ => unitRec) 0 (by norm_num) (by norm_num)).1

/-! Claim C7 about split selection. -/

/-- Claim C7, counterexample to the claim as stated: with one candidate per
parity row (`gmmK = 1`), cluster 0 (eigenvalue 5, read off slot q4 by the
abstracted solver) holds the globally largest eigenvalue, yet row 1 also
selects its own cluster 1 (eigenvalue 3) — `GMMFindSplit` writes one
descriptor per parity row, and `GMMDoSplit` then relabels a pixel of
cluster 1, so the round does not split the single globally-largest cluster
only. -/
theorem c7_counterexample :
    (GMMFindSplit (fun r => r.q4) (fun _ => ⟨1, 0, 0⟩) ⟨0, 0, 0⟩
        (fun g => if g = 0 then (⟨1, 0, 0, 0, 5, 0, 0, 0, 0, 0, 1⟩ : GMMRec)
          else ⟨1, 0, 0, 0, 3, 0, 0, 0, 0, 0, 1⟩) 1
        (fun _ => ⟨0, 0, ⟨0, 0, 0⟩⟩) 1).idx = 0 ∧
    ((fun g => if g = 0 then (⟨1, 0, 0, 0, 5, 0, 0, 0, 0, 0, 1⟩ : GMMRec)
        else ⟨1, 0, 0, 0, 3, 0, 0, 0, 0, 0, 1⟩) 1).q4 <
      ((fun g => if g = 0 then (⟨1, 0, 0, 0, 5, 0, 0, 0, 0, 0, 1⟩ : GMMRec)
        else ⟨1, 0, 0, 0, 3, 0, 0, 0, 0, 0, 1⟩) 0).q4 ∧
    GMMDoSplit (GMMFindSplit (fun r => r.q4) (fun _ => ⟨1, 0, 0⟩) ⟨0, 0, 0⟩
        (fun g => if g = 0 then (⟨1, 0, 0, 0, 5, 0, 0, 0, 0, 0, 1⟩ : GMMRec)
          else ⟨1, 0, 0, 0, 3, 0, 0, 0, 0, 0, 1⟩) 1
        (fun _ => ⟨0, 0, ⟨0, 0, 0⟩⟩)) 2 1 1 (fun _ => ⟨9, 0, 0⟩) (fun _ => 1) 0 ≠
      (fun _ => (1:ℤ)) 0 := by
  have hEig : ∀ x : ℕ, rowEig (fun r => r.q4)
      (fun g => if g = 0 then (⟨1, 0, 0, 0, 5, 0, 0, 0, 0, 0, 1⟩ : GMMRec)
        else ⟨1, 0, 0, 0, 3, 0, 0, 0, 0, 0, 1⟩) 1 1 x =
      if x < 1 then 3 else 0 := by
    intro x
    by_cases hx : x < 1
    · have hx0 : x = 0 := by omega
      subst hx0
      norm_num [rowEig]
    · simp [rowEig, hx]
  have hmax : rowMax (fun r => r.q4)
      (fun g => if g = 0 then (⟨1, 0, 0, 0, 5, 0, 0, 0, 0, 0, 1⟩ : GMMRec)
        else ⟨1, 0, 0, 0, 3, 0, 0, 0, 0, 0, 1⟩) 1 1 = 3 := by
    apply le_antisymm
    · apply foldl_max_le
      · rw [hEig 0]
        norm_num
      · intro b hb
        obtain ⟨x, _, rfl⟩ := List.mem_map.mp hb
        rw [hEig x]
        split_ifs <;> norm_num
    · have h := rowEig_le_rowMax (fun r => r.q4)
        (fun g => if g = 0 then (⟨1, 0, 0, 0, 5, 0, 0, 0, 0, 0, 1⟩ : GMMRec)
          else ⟨1, 0, 0, 0, 3, 0, 0, 0, 0, 0, 1⟩) 1 1 0 (by norm_num)
      rw [hEig 0] at h
      simpa using h
  have hrow : GMMFindSplitRow (fun r => r.q4) (fun _ => ⟨1, 0, 0⟩) ⟨0, 0, 0⟩
      (fun g => if g = 0 then (⟨1, 0, 0, 0, 5, 0, 0, 0, 0, 0, 1⟩ : GMMRec)
        else ⟨1, 0, 0, 0, 3, 0, 0, 0, 0, 0, 1⟩) 1 1 ⟨0, 0, ⟨0, 0, 0⟩⟩ =
      rowDesc (fun _ => ⟨1, 0, 0⟩) ⟨0, 0, 0⟩
        (fun g => if g = 0 then (⟨1, 0, 0, 0, 5, 0, 0, 0, 0, 0, 1⟩ : GMMRec)
          else ⟨1, 0, 0, 0, 3, 0, 0, 0, 0, 0, 1⟩) 1 1 0 := by
    simp only [GMMFindSplitRow]
    apply foldl_write_unique _ _ _ 32 0 (by norm_num)
    · rw [hEig 0, hmax]
      norm_num
    · intro x hx hPx
      rw [hEig x, hmax] at hPx
      by_contra hne
      have hxge : ¬ x < 1 := by omega
      rw [if_neg hxge] at hPx
      norm_num at hPx
  have hsplit1 : GMMFindSplit (fun r => r.q4) (fun _ => ⟨1, 0, 0⟩) ⟨0, 0, 0⟩
      (fun g => if g = 0 then (⟨1, 0, 0, 0, 5, 0, 0, 0, 0, 0, 1⟩ : GMMRec)
        else ⟨1, 0, 0, 0, 3, 0, 0, 0, 0, 0, 1⟩) 1 (fun _ => ⟨0, 0, ⟨0, 0, 0⟩⟩) 1 =
      rowDesc (fun _ => ⟨1, 0, 0⟩) ⟨0, 0, 0⟩
        (fun g => if g = 0 then (⟨1, 0, 0, 0, 5, 0, 0, 0, 0, 0, 1⟩ : GMMRec)
          else ⟨1, 0, 0, 0, 3, 0, 0, 0, 0, 0, 1⟩) 1 1 0 := by
    simp only [GMMFindSplit, if_pos (by norm_num : (1:ℕ) < 2)]
    exact hrow
  refine ⟨?_, ?_, ?_⟩
  · rw [hsplit1]
    simp [rowDesc]
  · norm_num
  · rw [show GMMDoSplit (GMMFindSplit (fun r => r.q4) (fun _ => ⟨1, 0, 0⟩) ⟨0, 0, 0⟩
        (fun g => if g = 0 then (⟨1, 0, 0, 0, 5, 0, 0, 0, 0, 0, 1⟩ : GMMRec)
          else ⟨1, 0, 0, 0, 3, 0, 0, 0, 0, 0, 1⟩) 1
        (fun _ => ⟨0, 0, ⟨0, 0, 0⟩⟩)) 2 1 1 (fun _ => ⟨9, 0, 0⟩) (fun _ => 1) 0 = 3 from ?_]
    · norm_num
    · simp only [GMMDoSplit]
      norm_num [hsplit1, rowDesc, rowVec, scalar_prod, pixelVec]

/-- Claim C7 (amended): in each split round, each of the two parity rows
independently stores the descriptor of a lane whose eigenvalue attains that
ROW's maximum (two clusters are selected per round, one per top-level
mixture; among exact ties the winning lane is decided by the hardware write
order, not necessarily first-seen); when some real candidate of the row has
a positive eigenvalue, the winning lane is a real candidate (`x < gmmK`). -/
theorem c7_row_argmax (eig : GMMRec → ℚ) (evec : GMMRec → Vec3) (junk : Vec3)
    (gmm : ℕ → GMMRec) (gmmK : ℕ) (old : ℕ → GMMSplit_t) (y : ℕ) (hy : y < 2) :
    ∃ x, x < 32 ∧
      GMMFindSplit eig evec junk gmm gmmK old y = rowDesc evec junk gmm gmmK y x ∧
      (∀ x', x' < 32 → rowEig eig gmm gmmK y x' ≤ rowEig eig gmm gmmK y x) ∧
      ((∃ xc, xc < gmmK ∧ xc < 32 ∧ 0 < eig (gmm (xc * 2 + y))) → x < gmmK) := by
  obtain ⟨x, hx, hPx, heq⟩ := findSplitRow_exists eig evec junk gmm gmmK y (old y)
  refine ⟨x, hx, ?_, ?_, ?_⟩
  · simp only [GMMFindSplit, if_pos hy]
    exact heq
  · intro x' hx'
    rw [hPx]
    exact rowEig_le_rowMax eig gmm gmmK y x' hx'
  · rintro ⟨xc, hxcK, hxc32, hxcpos⟩
    by_contra hxK
    have h1 : rowEig eig gmm gmmK y xc ≤ rowEig eig gmm gmmK y x := by
      rw [hPx]
      exact rowEig_le_rowMax eig gmm gmmK y xc hxc32
    rw [rowEig, if_pos hxcK] at h1
    rw [rowEig, if_neg hxK] at h1
    linarith

/-- Witness for claim C7's amended statement at a concrete configuration
(`gmmK = 1`, all-`unitRec` records, eigenvalue solver reading q4). -/
theorem c7_witness :
    ∃ x, x < 32 ∧
      GMMFindSplit (fun r => r.q4) (fun _ => ⟨1, 0, 0⟩) ⟨0, 0, 0⟩ (fun _ => unitRec) 1
        (fun _ => ⟨0, 0, ⟨0, 0, 0⟩⟩) 0 =
        rowDesc (fun _ => ⟨1, 0, 0⟩) ⟨0, 0, 0⟩ (fun _ => unitRec) 1 0 x ∧
      (∀ x', x' < 32 → rowEig (fun r => r.q4) (fun _ => unitRec) 1 0 x' ≤
        rowEig (fun r => r.q4) (fun _ => unitRec) 1 0 x) ∧
      ((∃ xc, xc < 1 ∧ xc < 32 ∧ 0 < ((fun _ => unitRec) (xc * 2 + 0) : GMMRec).q4) →
        x < 1) :=
  c7_row_argmax (fun r => r.q4) (fun _ => ⟨1, 0, 0⟩) ⟨0, 0, 0⟩ (fun _ => unitRec) 1
    (fun _ => ⟨0, 0, ⟨0, 0, 0⟩⟩) 0 (by norm_num)

/-! Claim C8 about split application. -/

/-- Per-pixel characterization of `GMMDoSplit`: a pixel's label changes
exactly when it is in bounds, not excluded, assigned to the cluster chosen
by ITS parity's descriptor, and its color's projection strictly exceeds
that descriptor's threshold. -/
theorem doSplit_char (split : ℕ → GMMSplit_t) (k : ℤ) (w h : ℕ)
    (image : ℕ → Pixel) (alpha : ℕ → ℤ) (p : ℕ) :
    GMMDoSplit split k w h image alpha p =
      if p < w * h ∧ alpha p ≠ -1 ∧
          alpha p / 2 = (split (alpha p % 2).toNat).idx ∧
          (split (alpha p % 2).toNat).threshold <
            scalar_prod (split (alpha p % 2).toNat).eigenvector (pixelVec (image p))
        then k + alpha p % 2 else alpha p := by
  simp only [GMMDoSplit]
  split_ifs <;> first | rfl | tauto

/-- Claim C8 (amended): `GMMDoSplit` consumes one descriptor per parity
class; a pixel consults the descriptor of its label's parity; the pass
changes exactly those label-map entries whose pixel is assigned to that
descriptor's chosen cluster and whose color projection strictly exceeds
that descriptor's threshold (assuming all labels are below the new index
`k`), setting them to the newly created sibling index `k + parity`; every
other entry is unchanged, and the image buffer is never modified. -/
theorem c8_dosplit_frame (split : ℕ → GMMSplit_t) (k : ℤ) (w h : ℕ)
    (image : ℕ → Pixel) (alpha : ℕ → ℤ) (hbound : ∀ p, alpha p < k) :
    (∀ p, (p < w * h ∧ alpha p ≠ -1 ∧
        alpha p / 2 = (split (alpha p % 2).toNat).idx ∧
        (split (alpha p % 2).toNat).threshold <
          scalar_prod (split (alpha p % 2).toNat).eigenvector (pixelVec (image p))) →
      GMMDoSplit split k w h image alpha p = k + alpha p % 2) ∧
    (∀ p, ¬ (p < w * h ∧ alpha p ≠ -1 ∧
        alpha p / 2 = (split (alpha p % 2).toNat).idx ∧
        (split (alpha p % 2).toNat).threshold <
          scalar_prod (split (alpha p % 2).toNat).eigenvector (pixelVec (image p))) →
      GMMDoSplit split k w h image alpha p = alpha p) ∧
    (∀ p, GMMDoSplit split k w h image alpha p ≠ alpha p ↔
      (p < w * h ∧ alpha p ≠ -1 ∧
        alpha p / 2 = (split (alpha p % 2).toNat).idx ∧
        (split (alpha p % 2).toNat).threshold <
          scalar_prod (split (alpha p % 2).toNat).eigenvector (pixelVec (image p)))) ∧
    (GMMDoSplitState split k w h (image, alpha)).1 = image := by
  refine ⟨?_, ?_, ?_, rfl⟩
  · intro p hc
    rw [doSplit_char, if_pos hc]
  · intro p hc
    rw [doSplit_char, if_neg hc]
  · intro p
    rw [doSplit_char]
    constructor
    · intro hne
      by_contra hc
      rw [if_neg hc] at hne
      exact hne rfl
    · intro hc
      rw [if_pos hc]
      have hm : 0 ≤ alpha p % 2 := Int.emod_nonneg _ (by norm_num)
      have hb := hbound p
      omega

/-- Witness for claim C8's amended statement: on a 2x1 image, the pixel at
0 (cluster 0 = chosen index 0 of parity 0, projection 5 above threshold 0)
is relabeled to `k + 0 = 4`. -/
theorem c8_witness :
    GMMDoSplit (fun _ => ⟨0, 0, ⟨1, 0, 0⟩⟩) 4 2 1 (fun _ => ⟨5, 0, 0⟩)
      (fun p => if p = 0 then 0 else 1) 0 =
      4 + (fun p => if p = 0 then (0:ℤ) else 1) 0 % 2 :=
  (c8_dosplit_frame (fun _ => ⟨0, 0, ⟨1, 0, 0⟩⟩) 4 2 1 (fun _ => ⟨5, 0, 0⟩)
      (fun p => if p = 0 then 0 else 1)
      (by intro p; dsimp only; split_ifs <;> norm_num)).1 0
    ⟨by norm_num, by norm_num, by norm_num, by norm_num [scalar_prod, pixelVec]⟩

/-- Claim C8, counterexample to the claim as stated ("the relabeling pass
changes exactly those entries whose pixel is currently assigned to THE
chosen cluster"): with both parity descriptors choosing sub-index 0, the
pass relabels pixels of TWO distinct clusters (labels 0 and 1), so no
single chosen cluster accounts for the changed entries. -/
theorem c8_counterexample :
    ¬ ∃ c : ℤ, ∀ p,
      GMMDoSplit (fun _ => ⟨0, 0, ⟨1, 0, 0⟩⟩) 4 2 1 (fun _ => ⟨5, 0, 0⟩)
          (fun p => if p = 0 then 0 else 1) p ≠
        (fun p => if p = 0 then (0:ℤ) else 1) p →
      (fun p => if p = 0 then (0:ℤ) else 1) p = c := by
  rintro ⟨c, hc⟩
  have hv0 : GMMDoSplit (fun _ => ⟨0, 0, ⟨1, 0, 0⟩⟩) 4 2 1 (fun _ => ⟨5, 0, 0⟩)
      (fun p => if p = 0 then 0 else 1) 0 = 4 := by
    rw [doSplit_char]
    norm_num [scalar_prod, pixelVec]
  have hv1 : GMMDoSplit (fun _ => ⟨0, 0, ⟨1, 0, 0⟩⟩) 4 2 1 (fun _ => ⟨5, 0, 0⟩)
      (fun p => if p = 0 then 0 else 1) 1 = 5 := by
    rw [doSplit_char]
    norm_num [scalar_prod, pixelVec]
  have h0 := hc 0 (by rw [hv0]; norm_num)
  have h1 := hc 1 (by rw [hv1]; norm_num)
  norm_num at h0 h1
  omega

/-! Claim C10: the parity invariant. -/

/-- Claim C10: the parity of a cluster index encodes its top-level mixture:
(a) `GMMDoSplit` with an even new index `k` preserves the parity of every
label (no pixel ever moves between top-level mixtures); (b) mixture `i` of
the density evaluation sums exactly the clusters with index parity `i`;
(c) the weight normalization divides by the combined count of exactly the
clusters of the same index parity. -/
theorem c10_parity_invariant :
    (∀ (split : ℕ → GMMSplit_t) (k : ℤ) (w h : ℕ) (image : ℕ → Pixel)
        (alpha : ℕ → ℤ) (p : ℕ), 2 ∣ k →
        GMMDoSplit split k w h image alpha p % 2 = alpha p % 2) ∧
    (∀ (expf : ℚ → ℚ) (px : Pixel) (gmm : ℕ → GMMRec) (m i : ℕ), i < 2 →
        mixtureWeight expf px gmm (2 * m) i =
          (((List.range (2 * m)).filter (fun j => j % 2 = i)).map
            (fun j => GMMTerm expf px (gmm j))).sum) ∧
    (∀ (sqrtf : ℚ → ℚ) (gmm : ℕ → GMMRec) (gmmK g : ℕ), gmmK ≤ 32 → g / 2 < gmmK →
        (GMMcommonTerm sqrtf gmmK gmm g).slot10 =
          (gmm g).count / (sqrtf ((gmm g).slot10) *
            ((List.range gmmK).map (fun x => (gmm (x * 2 + g % 2)).count)).sum) ∧
        ∀ x : ℕ, (x * 2 + g % 2) % 2 = g % 2) := by
  refine ⟨?_, ?_, ?_⟩
  · intro split k w h image alpha p hk
    rw [doSplit_char]
    split_ifs with hc
    · omega
    · rfl
  · intro expf px gmm m i hi
    exact mixtureWeight_filter expf px gmm m i hi
  · intro sqrtf gmm gmmK g hK hg
    constructor
    · rw [commonTerm_active sqrtf gmmK gmm g hg hK]
    · intro x
      omega

/-- Witness for claim C10 at concrete inputs: parity preserved by a split
with `k = 2`; mixture 0's weight over two clusters; cluster 0's common
term. -/
theorem c10_witness :
    GMMDoSplit (fun _ => ⟨0, 0, ⟨1, 0, 0⟩⟩) 2 1 1 (fun _ => ⟨0, 0, 0⟩)
        (fun _ => 0) 0 % 2 = (fun _ => (0:ℤ)) 0 % 2 ∧
    mixtureWeight (fun _ => 1) ⟨0, 0, 0⟩ (fun _ => unitRec) (2 * 1) 0 =
      (((List.range (2 * 1)).filter (fun j => j % 2 = 0)).map
        (fun j => GMMTerm (fun _ => 1) ⟨0, 0, 0⟩ ((fun _ => unitRec) j))).sum ∧
    (GMMcommonTerm (fun t => t) 1 (fun _ => unitRec) 0).slot10 =
      ((fun _ => unitRec) 0 : GMMRec).count /
        ((fun t => t) (((fun _ => unitRec) 0 : GMMRec).slot10) *
          ((List.range 1).map
            (fun x => ((fun _ => unitRec) (x * 2 + 0 % 2) : GMMRec).count)).sum) :=
  ⟨c10_parity_invariant.1 (fun _ => ⟨0, 0, ⟨1, 0, 0⟩⟩) 2 1 1 (fun _ => ⟨0, 0, 0⟩)
      (fun _ => 0) 0 (by norm_num),
   c10_parity_invariant.2.1 (fun _ => 1) ⟨0, 0, 0⟩ (fun _ => unitRec) 1 0 (by norm_num),
   (c10_parity_invariant.2.2 (fun t => t) (fun _ => unitRec) 1 0 (by norm_num)
      (by norm_num)).1⟩

end GMM
